import Mathlib

/-!
Verification of the pandapower `pd2ppc` module (file `pandapower/pd2ppc.py`).

This file gives a shallow embedding, over `Nat`/`Int`/`Rat`, of

* the external-to-internal case compiler `_ppc2ppci` (bus reordering,
  dense renumbering via the `e2i` scatter map, lookup remapping,
  generator sorting, in-service mask computation and filtering),
* the lookup remap `_update_lookup_entries`,
* the operating-point updater `_update_ppc`,
* the zero-sequence synthesizers: the `YNyn` branch of
  `_add_trafo_sc_impedance_zero`, the vector-group dispatch of the same
  function, the three-winding-transformer rejection in
  `_build_branch_ppc_zero`, and `_add_ext_grid_sc_impedance_zero`,

together with theorems settling the frozen claims about that code.
Matrices are modelled as lists of row structures; numpy float/complex
arithmetic is modelled exactly over `Rat` (the claims under scrutiny are
about data movement, control flow and rational identities, not float
rounding).
-/

/-! ## Generic array helpers (numpy idioms) -/

/-- Scatter writes: `for (i, v) in ps: acc[i] = v`, starting from `init`.
This is the numpy fancy-indexed assignment `acc[idxs] = vals`.
An out-of-range index is a no-op here; all uses are guarded by
in-range hypotheses matching numpy's bounds requirements. -/
def scatterSet {α : Type} (ps : List (ℕ × α)) (init : List α) : List α :=
  ps.foldl (fun acc p => acc.set p.1 p.2) init

/-- Boolean-mask row selection, numpy's `table[mask]`. -/
def maskSelect {α : Type} (xs : List α) (m : List Bool) : List α :=
  ((xs.zip m).filter (fun q => q.2)).map (fun q => q.1)

/-! ## Data model for the external/internal case (`ppc` / `ppci`)

Only the columns read or written by `_ppc2ppci` and `_update_ppc` are
modelled: `BUS_I`, `BUS_TYPE` for bus rows; `GEN_BUS`, `GEN_STATUS` for
generator rows; `F_BUS`, `T_BUS`, `BR_STATUS` for branch rows. -/

/-- Value of the `NONE` bus type tag (isolated bus), `pandapower.idx_bus.NONE = 4`. -/
def busTypeNone : ℕ := 4

structure BusRow where
  bus_i : ℕ
  bus_type : ℕ
deriving DecidableEq, Repr

structure GenRow where
  gen_bus : ℕ
  gen_status : ℤ
deriving DecidableEq, Repr

structure BranchRow where
  f_bus : ℕ
  t_bus : ℕ
  br_status : ℤ
deriving DecidableEq, Repr

/-- External case: the three tables consumed by `_ppc2ppci`. -/
structure PpcCase where
  bus : List BusRow
  gen : List GenRow
  branch : List BranchRow
deriving DecidableEq, Repr

/-- Out-of-service test `ppc['bus'][:, BUS_TYPE] == NONE` (line 164). -/
def oosB (b : BusRow) : Bool := b.bus_type == busTypeNone

/-- Line 167: `ppc['bus'] = np.r_[ppc['bus'][~oos], ppc['bus'][oos]]`:
in-service buses first, isolated buses moved to the tail. -/
def busReorder (bus : List BusRow) : List BusRow :=
  bus.filter (fun b => !(oosB b)) ++ bus.filter (fun b => oosB b)

/-- Line 178: `ppc['bus'][:, BUS_I] = aranged_buses` - overwrite the
identifier column with consecutive integers starting at `k`. -/
def renumberBusI : ℕ → List BusRow → List BusRow
  | _, [] => []
  | k, b :: rest => { b with bus_i := k } :: renumberBusI (k + 1) rest

/-- Lines 174-175: `e2i = np.zeros(len(ppc['bus'])); e2i[ppc_former_order] = aranged_buses`.
The scatter is over the pairs `(former_order[k], k)`. -/
def buildE2i (ids : List ℕ) : List ℕ :=
  scatterSet (ids.zip (List.range ids.length)) (List.replicate ids.length 0)

/-- The reordered external bus table with the identifier column rewritten
to dense consecutive values (lines 167 and 178). -/
def ppcBusOf (bus : List BusRow) : List BusRow :=
  renumberBusI 0 (busReorder bus)

/-- The old-row-to-new-row map built at lines 170-175 from the reordered
bus identifiers. -/
def e2iOf (bus : List BusRow) : List ℕ :=
  buildE2i ((busReorder bus).map BusRow.bus_i)

/-- Lines 165 and 179: the internal bus table keeps the in-service rows
(in their original order) and takes its `BUS_I` column from the first
rows of the renumbered external table. -/
def ppciBusOf (bus : List BusRow) : List BusRow :=
  List.zipWith (fun d s => { d with bus_i := s.bus_i })
    (bus.filter (fun b => !(oosB b))) (ppcBusOf bus)

/-- Lines 264-268, `_update_lookup_entries`: every valid entry (value at
least 0) is replaced by `e2i[entry]`, negative sentinels stay unchanged. -/
def updateLookupEntries (lookup : List ℤ) (e2i : List ℕ) : List ℤ :=
  lookup.map (fun v => if 0 ≤ v then ((e2i.getD v.toNat 0 : ℕ) : ℤ) else v)

/-- Line 192: `ppc['gen'][:, GEN_BUS] = e2i[gen_bus]`. -/
def remapGen (e2i : List ℕ) (g : GenRow) : GenRow :=
  { g with gen_bus := e2i.getD g.gen_bus 0 }

/-- Lines 193-194: branch from/to bus renumbering through `e2i`. -/
def remapBranch (e2i : List ℕ) (b : BranchRow) : BranchRow :=
  { b with f_bus := e2i.getD b.f_bus 0, t_bus := e2i.getD b.t_bus 0 }

/-- True as the integer 1, false as 0: numpy upcasts booleans this way
inside the bitwise conjunction at lines 240-242. -/
def boolToInt (b : Bool) : ℤ := if b then 1 else 0

/-- Generator in-service mask, lines 236-237:
`(gen_status > 0) & bus_status[n2i[gen_bus]]`. -/
def genMaskOf (bs : List Bool) (n2i : List ℕ) (g : GenRow) : Bool :=
  decide (0 < g.gen_status) && bs.getD (n2i.getD g.gen_bus 0) false

/-- Branch in-service mask, lines 240-242:
`(br_status.astype(int) & bus_status_from & bus_status_to).astype(bool)`.
The conjunction is the bitwise integer `&` of the source. -/
def brMaskOf (bs : List Bool) (n2i : List ℕ) (b : BranchRow) : Bool :=
  !(Int.land (Int.land b.br_status (boolToInt (bs.getD (n2i.getD b.f_bus 0) false)))
      (boolToInt (bs.getD (n2i.getD b.t_bus 0) false)) == 0)

/-- Result of `_ppc2ppci` (lines 159-261): the mutated external tables,
the renumbering map, the updated bus lookup, the in-service masks and
the filtered internal tables. -/
structure PpciOut where
  ppcBus : List BusRow
  ppciBus : List BusRow
  e2i : List ℕ
  busLookup : List ℤ
  ppcGen : List GenRow
  ppcBranch : List BranchRow
  gen_is : List Bool
  branch_is : List Bool
  ppciGen : List GenRow
  ppciBranch : List BranchRow
deriving DecidableEq, Repr

/-- Shallow embedding of `_ppc2ppci` (lines 159-261).  The generator
argsort of line 207 is modelled as a sort of the rows by ascending
`GEN_BUS`; numpy's default argsort kind (quicksort) fixes some order on
ties which is not part of its contract and is not modelled here. The
`areas`, `dcline` and user-callback steps touch fields outside the
modelled tables and are omitted. -/
def ppc2ppci (p : PpcCase) (busLookup : List ℤ) : PpciOut :=
  let ppcBus := ppcBusOf p.bus
  let e2i := e2iOf p.bus
  let ppciBus := ppciBusOf p.bus
  let lookup2 := updateLookupEntries busLookup e2i
  let bt := ppcBus.map BusRow.bus_type
  let gen1 := p.gen.map (remapGen e2i)
  let branch1 := p.branch.map (remapBranch e2i)
  let sortedGen := gen1.mergeSort (fun a b => Nat.ble a.gen_bus b.gen_bus)
  let n2i := ppcBus.map BusRow.bus_i
  let bs := bt.map (fun t => !(t == busTypeNone))
  let gs := sortedGen.map (genMaskOf bs n2i)
  let brs := branch1.map (brMaskOf bs n2i)
  { ppcBus := ppcBus, ppciBus := ppciBus, e2i := e2i, busLookup := lookup2,
    ppcGen := sortedGen, ppcBranch := branch1, gen_is := gs, branch_is := brs,
    ppciGen := maskSelect sortedGen gs, ppciBranch := maskSelect branch1 brs }

/-- The bus type of the bus whose identifier column equals `i` (claim-side
accessor used to state host-bus conditions; `find?` picks the unique such
row when the identifier column is duplicate-free). -/
def hostBusType (bus : List BusRow) (i : ℕ) : ℕ :=
  match bus.find? (fun b => b.bus_i == i) with
  | some b => b.bus_type
  | none => busTypeNone

/-- State read by `_update_ppc`: the external tables plus the internal
cache slots `branch_is` / `gen_is` (lines 140-150 initialise them, lines
318-319 read them). -/
structure PpcStored where
  bus : List BusRow
  gen : List GenRow
  branch : List BranchRow
  branch_is : List Bool
  gen_is : List Bool
deriving DecidableEq, Repr

/-- Shallow embedding of `_update_ppc` (lines 288-323).  The P/Q, shunt,
generator-value and transformer-value refreshes (lines 303-310) are
external builders that touch only power/impedance columns outside the
modelled fields, so on this model the external case passes through
unchanged; lines 314-321 then rebuild the internal case: in-service
buses only, and branch/gen tables sliced with the masks read from the
internal cache of the given case.  No renumbering step appears. -/
def updatePPC (ppc : PpcStored) : PpcStored × PpcStored :=
  let ppciBus := ppc.bus.filter (fun b => !(oosB b))
  (ppc,
    { bus := ppciBus,
      gen := maskSelect ppc.gen ppc.gen_is,
      branch := maskSelect ppc.branch ppc.branch_is,
      branch_is := ppc.branch_is, gen_is := ppc.gen_is })

/-- Modelled from the spec: the persistence step that makes the masks
computed during compilation available in the internal cache of the case
the incremental updater reads.  `_ppc2ppci` stores the masks on the
returned internal case (lines 238 and 243) while `_update_ppc` reads
them from the case stored on the net (lines 300 and 318-319); the
carry-over between the two lives outside `pd2ppc.py` (the result
copy-back in the run pipeline).  The spec states that both masks are
persisted "in the case's internal cache for reuse by the incremental
updater", which this definition realises. -/
def persistInternalMasks (out : PpciOut) : PpcStored :=
  { bus := out.ppcBus, gen := out.ppcGen, branch := out.ppcBranch,
    branch_is := out.branch_is, gen_is := out.gen_is }

/-! ## Complex rational arithmetic for the zero-sequence synthesizer -/

/-- Complex numbers with rational parts, the model of numpy `complex128`
values appearing in the zero-sequence branch tables. -/
structure CQ where
  re : ℚ
  im : ℚ
deriving DecidableEq, Repr

def CQ.add (a b : CQ) : CQ := ⟨a.re + b.re, a.im + b.im⟩

def CQ.mul (a b : CQ) : CQ :=
  ⟨a.re * b.re - a.im * b.im, a.re * b.im + a.im * b.re⟩

def CQ.neg (a : CQ) : CQ := ⟨-a.re, -a.im⟩

def CQ.sub (a b : CQ) : CQ := ⟨a.re - b.re, a.im - b.im⟩

/-- Complex reciprocal; at 0 this yields 0 (the claims evaluate it only
away from 0). -/
def CQ.inv (a : CQ) : CQ :=
  ⟨a.re / (a.re * a.re + a.im * a.im), -a.im / (a.re * a.re + a.im * a.im)⟩

def CQ.div (a b : CQ) : CQ := a.mul b.inv

instance : Add CQ := ⟨CQ.add⟩
instance : Mul CQ := ⟨CQ.mul⟩
instance : Neg CQ := ⟨CQ.neg⟩
instance : Sub CQ := ⟨CQ.sub⟩
instance : Inv CQ := ⟨CQ.inv⟩
instance : Div CQ := ⟨CQ.div⟩

def CQ.ofRat (q : ℚ) : CQ := ⟨q, 0⟩

/-- The imaginary unit `1j`. -/
def CQ.iUnit : CQ := ⟨0, 1⟩

/-- Lexicographic strict order on complex values: real parts first,
imaginary parts as tie break.  This is the ordering numpy (of the era of
this code) uses for `<` / `>` on `complex128` operands, as exercised at
lines 469 and 478. -/
def cqLt (a b : CQ) : Prop :=
  a.re < b.re ∨ (a.re = b.re ∧ a.im < b.im)

instance (a b : CQ) : Decidable (cqLt a b) :=
  inferInstanceAs (Decidable (a.re < b.re ∨ (a.re = b.re ∧ a.im < b.im)))

/-! ## The `YNyn` branch of `_add_trafo_sc_impedance_zero` (lines 445-501) -/

/-- Per-transformer zero-sequence inputs of the `YNyn` block.  `z0k` is
the zero-sequence leakage impedance `z0_k` of lines 408-419 (percent
impedance, rated power, tap and parallel scaling, and the short-circuit
correction factor already folded in), `z0mag` the magnetising impedance
`z0_mag` of lines 422-427, `si0_hv` the `si0_hv_partial` column. -/
structure TrafoZ where
  hv_bus : ℕ
  lv_bus : ℕ
  z0k : CQ
  z0mag : CQ
  si0_hv : ℚ
  in_service : Bool
deriving DecidableEq, Repr

/-- Zero-sequence branch row: complex-valued table (line 344), with the
columns touched by the `YNyn` block. -/
structure BranchZ where
  f_bus : ℕ
  t_bus : ℕ
  br_r : ℚ
  br_x : ℚ
  br_b : CQ
  br_status : ℤ
deriving DecidableEq, Repr

def defaultBranchZ : BranchZ :=
  { f_bus := 0, t_bus := 0, br_r := 0, br_x := 0, br_b := ⟨0, 0⟩, br_status := 0 }

/-- Line 448: `z1 = si0_hv_partial * z0_k`. -/
def z1Of (t : TrafoZ) : CQ := CQ.ofRat t.si0_hv * t.z0k

/-- Line 449: `z2 = (1 - si0_hv_partial) * z0_k`. -/
def z2Of (t : TrafoZ) : CQ := CQ.ofRat (1 - t.si0_hv) * t.z0k

/-- Line 450: `z3 = z0_mag`. -/
def z3Of (t : TrafoZ) : CQ := t.z0mag

/-- Line 452: `z_temp = z1*z2 + z2*z3 + z1*z3`. -/
def zTempOf (t : TrafoZ) : CQ := z1Of t * z2Of t + z2Of t * z3Of t + z1Of t * z3Of t

/-- Line 453: `za = z_temp / z2`. -/
def zaOf (t : TrafoZ) : CQ := zTempOf t / z2Of t

/-- Line 454: `zb = z_temp / z1`. -/
def zbOf (t : TrafoZ) : CQ := zTempOf t / z1Of t

/-- Line 455: `zc = z_temp / z3`. -/
def zcOf (t : TrafoZ) : CQ := zTempOf t / z3Of t

def inServInt (t : TrafoZ) : ℤ := if t.in_service then 1 else 0

def inServQ (t : TrafoZ) : ℚ := if t.in_service then 1 else 0

/-- One iteration of the loop at lines 461-486, for the loop transformer
`t`.  Note the two faithful quirks of the source: `ppc["branch"][ppc_idx, BR_B] = y`
writes the scalar `y` of the loop transformer onto EVERY branch row of
the group (`ppc_idx` is the whole index vector), and the appended shunt
entries pair the loop transformer's scalar `ys` with the FULL
`hv_buses_ppc` / `lv_buses_ppc` and `in_service` vectors of the group. -/
def ynynLoopStep (base : ℤ) (ts : List TrafoZ)
    (st : List BranchZ × List (ℕ × ℚ × ℚ)) (t : TrafoZ) :
    List BranchZ × List (ℕ × ℚ × ℚ) :=
  let za := zaOf t
  let zb := zbOf t
  if za = zb then
    -- lines 462-468: y = -1j/za; ys = 0; entries appended at the lv buses
    (st.1.map (fun r => { r with br_b := (-CQ.iUnit).div za }),
     st.2 ++ ts.map (fun u => (u.lv_bus, (0 : ℚ), (0 : ℚ))))
  else if cqLt zb za then
    -- lines 469-477 (za > zb): y = -1j/za; zs = za*zb/(za - zb); hv side
    let zs := (za * zb) / (za - zb)
    let ys := zs.inv
    (st.1.map (fun r => { r with br_b := (-CQ.iUnit).div za }),
     st.2 ++ ts.map (fun u =>
       (u.hv_bus, ys.re * inServQ u * (base : ℚ), ys.im * inServQ u * (base : ℚ))))
  else if cqLt za zb then
    -- lines 478-486 (za < zb): y = -1j/zb; zs = za*zb/(zb - za); lv side
    let zs := (za * zb) / (zb - za)
    let ys := zs.inv
    (st.1.map (fun r => { r with br_b := (-CQ.iUnit).div zb }),
     st.2 ++ ts.map (fun u =>
       (u.lv_bus, ys.re * inServQ u * (base : ℚ), ys.im * inServQ u * (base : ℚ))))
  else
    -- unreachable: the lexicographic order is total
    st

/-- Accumulation of grouped shunt entries onto the bus table:
`buses, gs, bs = _sum_by_group(...); ppc['bus'][buses, GS] += gs` and
likewise for `BS` (lines 498-500).  Summing per unique bus and then
adding once is the same as adding every entry, modelled as a left fold
of pointwise additions. -/
def addShuntGrouped (busTab : List (ℚ × ℚ)) (entries : List (ℕ × ℚ × ℚ)) :
    List (ℚ × ℚ) :=
  entries.foldl
    (fun tab e =>
      tab.set e.1 ((tab.getD e.1 (0, 0)).1 + e.2.1, (tab.getD e.1 (0, 0)).2 + e.2.2))
    busTab

/-- The `YNyn` vector-group bucket of `_add_trafo_sc_impedance_zero`
(lines 369-501 specialised to `vector_group == "YNyn"`).  `rows` are the
branch rows of the bucket (aligned with `ts`), `busTab` the `(GS, BS)`
columns of the bus table.  Steps in source order: status zeroed for the
whole bucket (line 371), from/to buses written (391-392), status set to
the in-service flag (446), series impedance `zc` written per row
(457-458), then the per-transformer loop (461-486), and finally the
grouped shunt accumulation (498-500). -/
def ynynGroup (base : ℤ) (ts : List TrafoZ) (rows : List BranchZ)
    (busTab : List (ℚ × ℚ)) : List BranchZ × List (ℚ × ℚ) :=
  let rows1 := List.zipWith
    (fun r t => { r with br_status := (0 : ℤ), f_bus := t.hv_bus, t_bus := t.lv_bus })
    rows ts
  let rows2 := List.zipWith
    (fun r t => { r with br_status := inServInt t,
                         br_r := (zcOf t).re, br_x := (zcOf t).im })
    rows1 ts
  let st := ts.foldl (ynynLoopStep base ts) (rows2, [])
  (st.1, addShuntGrouped busTab st.2)

/-! ## Vector-group dispatch and error surface (lines 369-496) -/

inductive ZeroSeqError where
  /-- ValueError of lines 492-494: vector group given with a numeric
  phase-shift suffix. -/
  | phaseShiftSuffix
  /-- ValueError of line 496: unknown / not implemented vector group. -/
  | unknownGroup
  /-- Python `IndexError: string index out of range` raised by
  `vector_group[-1]` at line 492 when the group string is empty. -/
  | emptyGroupIndex
  /-- Line 354: three-winding transformers rejected by
  `_build_branch_ppc_zero` (the source spells it
  `raise NotImplemented(...)`, which at run time raises a `TypeError`
  because the `NotImplemented` singleton is not callable - either way an
  exception aborts the build). -/
  | trafo3wUnsupported
deriving DecidableEq, Repr

inductive GroupAction where
  /-- Lines 373-374: the bucket's rows keep the status 0 written at line
  371; the group is skipped before any impedance computation. -/
  | forcedOutOfService
  /-- Lines 429-433: shunt from `1/z0_k` at the lv buses. -/
  | dynShunt
  /-- Lines 434-437: shunt from `1/z0_k` at the hv buses. -/
  | yndShunt
  /-- Lines 439-443: shunt from `1/(z0_mag + z0_k)` at the lv buses. -/
  | yynShunt
  /-- Lines 445-486: full T-to-Pi conversion (see `ynynGroup`). -/
  | ynynPi
  /-- Lines 487-491: shunt from `1/(z0_mag + z0_k)` at the hv buses. -/
  | ynyShunt
deriving DecidableEq, Repr

/-- Control-flow skeleton of one `vector_group` bucket of
`_add_trafo_sc_impedance_zero`: which action the dispatch chain at lines
373-496 selects, or which exception it raises.  `String.data.getLast?`
models Python's `vector_group[-1]`, which raises on an empty string. -/
def processGroup (vg : String) : Except ZeroSeqError GroupAction :=
  if vg ∈ ["Yy", "Yd", "Dy", "Dd"] then .ok .forcedOutOfService
  else if vg = "Dyn" then .ok .dynShunt
  else if vg = "YNd" then .ok .yndShunt
  else if vg = "Yyn" then .ok .yynShunt
  else if vg = "YNyn" then .ok .ynynPi
  else if vg = "YNy" then .ok .ynyShunt
  else
    match vg.data.getLast? with
    | none => .error .emptyGroupIndex
    | some c => if c.isDigit then .error .phaseShiftSuffix else .error .unknownGroup

/-- The `groupby` loop of `_add_trafo_sc_impedance_zero` at the dispatch
level: process each vector-group bucket in turn, propagating the first
raised error. -/
def processGroups : List String → Except ZeroSeqError Unit
  | [] => .ok ()
  | g :: rest =>
    match processGroup g with
    | .error e => .error e
    | .ok _ => processGroups rest

/-- Control-flow skeleton of `_build_branch_ppc_zero` (lines 326-354):
line and transformer zero-sequence values are synthesized (the
transformer groups may raise, line 352), then the presence of a
`trafo3w` entry in the branch lookup aborts the build (lines 353-354).
`lookupKeys` are the keys of `net._pd2ppc_lookups["branch"]`, `groups`
the vector-group strings of the transformer table. -/
def buildBranchPpcZero (lookupKeys : List String) (groups : List String) :
    Except ZeroSeqError Unit :=
  match processGroups groups with
  | .error e => .error e
  | .ok _ =>
    if "trafo3w" ∈ lookupKeys then .error .trafo3wUnsupported else .ok ()

/-! ## `_add_ext_grid_sc_impedance_zero` (lines 504-549) -/

/-- Analysis mode as read at lines 507-521: short-circuit, three-phase
power flow, or any other mode (in which the grid voltage factor `c` is
never assigned). -/
inductive ZMode where
  | sc
  | pf3ph
  | other
deriving DecidableEq, Repr

inductive EgError where
  /-- ValueError of lines 523-525: column `s_sc_<case>_mva` missing. -/
  | missingSScMva
  /-- ValueError of lines 527-529: column `rx_<case>` missing. -/
  | missingRx
  /-- Python `NameError` at line 531: `c` was assigned in neither branch
  of lines 519-522 because the mode is not `sc` and not `pf_3ph`. -/
  | cUnbound
deriving DecidableEq, Repr

/-- One in-service external grid with its zero-sequence impedance
parameters: `r0` and `x0` are the values `r0_grid` / `x0_grid` of lines
540-545 (`x0x_<case>` and `r0x0_<case>` scalings of the positive-sequence
grid reactance). -/
structure EgRow where
  bus : ℕ
  r0 : ℚ
  x0 : ℚ
deriving DecidableEq, Repr

/-- Total of the entries landing on bus `b` (the summation step of
`aux._sum_by_group` at line 547). -/
def sumAtBus (entries : List (ℕ × ℚ × ℚ)) (b : ℕ) : ℚ × ℚ :=
  entries.foldl
    (fun acc e => if e.1 == b then (acc.1 + e.2.1, acc.2 + e.2.2) else acc) (0, 0)

/-- Grouped shunt ASSIGNMENT of lines 547-549:
`buses, gs, bs = _sum_by_group(...); ppc['bus'][buses, GS] = gs;
ppc['bus'][buses, BS] = bs`.  Unlike the transformer path this overwrites
with `=`; each occupied bus is set to the group total. -/
def assignShuntGrouped (busTab : List (ℚ × ℚ)) (entries : List (ℕ × ℚ × ℚ)) :
    List (ℚ × ℚ) :=
  scatterSet (entries.map (fun e => (e.1, sumAtBus entries e.1))) busTab

/-- Shallow embedding of `_add_ext_grid_sc_impedance_zero` (lines
504-549).  `hasSSc` / `hasRx` model the presence of the columns
`s_sc_<case>_mva` / `rx_<case>` on the external-grid table; `eg` holds
one row per in-service external grid with the zero-sequence impedances
`r0_grid`, `x0_grid` of lines 540-545 (their computation from
`s_sc`, `rx`, `x0x`, `r0x0` goes through a real square root at line 534
and is taken as input here, at the granularity the claims use).  The
admittance written per grid is `y0 = 1/(r0 + 1j*x0)` (line 546). -/
def addExtGridScImpedanceZero (mode : ZMode) (hasSSc hasRx : Bool)
    (eg : List EgRow) (busTab : List (ℚ × ℚ)) : Except EgError (List (ℚ × ℚ)) :=
  if eg.isEmpty then .ok busTab
  else if !hasSSc then .error .missingSScMva
  else if !hasRx then .error .missingRx
  else
    match mode with
    | .other => .error .cUnbound
    | _ =>
      let contribs := eg.map (fun e =>
        (e.bus, (CQ.inv ⟨e.r0, e.x0⟩).re, (CQ.inv ⟨e.r0, e.x0⟩).im))
      .ok (assignShuntGrouped busTab contribs)

/-! ## Helper lemmas: scatter writes, mask selection, renumbering -/

theorem scatterSet_cons {α : Type} (p : ℕ × α) (ps : List (ℕ × α)) (init : List α) :
    scatterSet (p :: ps) init = scatterSet ps (init.set p.1 p.2) := rfl

theorem scatterSet_length {α : Type} (ps : List (ℕ × α)) (init : List α) :
    (scatterSet ps init).length = init.length := by
  induction ps generalizing init with
  | nil => rfl
  | cons p rest ih => rw [scatterSet_cons, ih, List.length_set]

theorem scatterSet_getElem?_not_mem {α : Type} {ps : List (ℕ × α)} {init : List α}
    {i : ℕ} (h : i ∉ ps.map Prod.fst) :
    (scatterSet ps init)[i]? = init[i]? := by
  induction ps generalizing init with
  | nil => rfl
  | cons p rest ih =>
      simp only [List.map_cons, List.mem_cons] at h
      push_neg at h
      rw [scatterSet_cons, ih h.2, List.getElem?_set_ne (Ne.symm h.1)]

theorem scatterSet_getElem?_mem {α : Type} {ps : List (ℕ × α)} {init : List α}
    {i : ℕ} {v : α} (hmem : (i, v) ∈ ps) (hfun : ∀ w, (i, w) ∈ ps → w = v)
    (hlen : i < init.length) :
    (scatterSet ps init)[i]? = some v := by
  induction ps generalizing init with
  | nil => cases hmem
  | cons p rest ih =>
      rw [scatterSet_cons]
      by_cases hm : i ∈ rest.map Prod.fst
      · obtain ⟨q, hq, hq1⟩ := List.mem_map.mp hm
        have hqr : (i, q.2) ∈ rest := by
          have : q = (i, q.2) := by
            cases q; simp only [Prod.fst] at hq1; simp [hq1]
          rw [← this]; exact hq
        have hqv : q.2 = v := hfun q.2 (List.mem_cons_of_mem _ hqr)
        exact ih (hqv ▸ hqr) (fun w hw => hfun w (List.mem_cons_of_mem _ hw))
          (by rw [List.length_set]; exact hlen)
      · rw [scatterSet_getElem?_not_mem hm]
        rcases List.mem_cons.mp hmem with h1 | h2
        · rw [← h1]
          exact List.getElem?_set_self hlen
        · exact absurd (List.mem_map.mpr ⟨(i, v), h2, rfl⟩) hm

theorem buildE2i_length (ids : List ℕ) : (buildE2i ids).length = ids.length := by
  rw [buildE2i, scatterSet_length, List.length_replicate]

theorem buildE2i_getElem? {ids : List ℕ} (hnd : ids.Nodup) {k : ℕ}
    (hk : k < ids.length) (hlt : ids[k] < ids.length) :
    (buildE2i ids)[ids[k]]? = some k := by
  have hzlen : (ids.zip (List.range ids.length)).length = ids.length := by
    simp [List.length_zip]
  apply scatterSet_getElem?_mem
  · have hk2 : k < (ids.zip (List.range ids.length)).length := by rw [hzlen]; exact hk
    have : (ids.zip (List.range ids.length))[k] = (ids[k], k) := by
      rw [List.getElem_zip]
      simp [List.getElem_range]
    exact this ▸ List.getElem_mem hk2
  · intro w hw
    obtain ⟨j, hj, hjw⟩ := List.mem_iff_getElem.mp hw
    have hj' : j < ids.length := by rw [hzlen] at hj; exact hj
    rw [List.getElem_zip] at hjw
    have hids : ids[j] = ids[k] := by
      have := congrArg Prod.fst hjw; simpa using this
    have hwj : w = j := by
      have h2 := congrArg Prod.snd hjw
      simp only [List.getElem_range] at h2
      exact h2.symm
    exact hwj.trans ((hnd.getElem_inj_iff).mp hids)
  · rw [List.length_replicate]; exact hlt

theorem buildE2i_getD {ids : List ℕ} (hnd : ids.Nodup) {k : ℕ}
    (hk : k < ids.length) (hlt : ids[k] < ids.length) :
    (buildE2i ids).getD ids[k] 0 = k := by
  rw [List.getD_eq_getElem?_getD, buildE2i_getElem? hnd hk hlt]
  rfl

theorem maskSelect_map {α : Type} (xs : List α) (p : α → Bool) :
    maskSelect xs (xs.map p) = xs.filter p := by
  induction xs with
  | nil => rfl
  | cons x xs ih =>
      simp only [maskSelect, List.map_cons, List.zip_cons_cons, List.filter_cons]
      by_cases h : p x
      · simp only [h, if_pos, List.map_cons]
        simpa [maskSelect] using ih
      · simp only [h]
        simpa [maskSelect, h] using ih

theorem renumberBusI_length (k : ℕ) (l : List BusRow) :
    (renumberBusI k l).length = l.length := by
  induction l generalizing k with
  | nil => rfl
  | cons b rest ih => simp [renumberBusI, ih]

theorem renumberBusI_map_bus_type (k : ℕ) (l : List BusRow) :
    (renumberBusI k l).map BusRow.bus_type = l.map BusRow.bus_type := by
  induction l generalizing k with
  | nil => rfl
  | cons b rest ih => simp [renumberBusI, ih]

theorem renumberBusI_map_bus_i (k : ℕ) (l : List BusRow) :
    (renumberBusI k l).map BusRow.bus_i = List.range' k l.length := by
  induction l generalizing k with
  | nil => rfl
  | cons b rest ih => simp [renumberBusI, List.range'_succ, ih]

theorem renumberBusI_append (k : ℕ) (l1 l2 : List BusRow) :
    renumberBusI k (l1 ++ l2) =
      renumberBusI k l1 ++ renumberBusI (k + l1.length) l2 := by
  induction l1 generalizing k with
  | nil => simp [renumberBusI]
  | cons b rest ih =>
      simp only [List.cons_append, renumberBusI, List.length_cons]
      have harith : k + 1 + rest.length = k + (rest.length + 1) := by omega
      rw [show rest.append l2 = rest ++ l2 from rfl, ih, harith]

theorem renumberBusI_idem (k : ℕ) (l : List BusRow) :
    renumberBusI k (renumberBusI k l) = renumberBusI k l := by
  induction l generalizing k with
  | nil => rfl
  | cons b rest ih => simp [renumberBusI, ih]

theorem zipWith_copy_renumber (k : ℕ) (l : List BusRow) :
    List.zipWith (fun d s => { d with bus_i := s.bus_i }) l (renumberBusI k l) =
      renumberBusI k l := by
  induction l generalizing k with
  | nil => rfl
  | cons b rest ih => simp [renumberBusI, ih]

theorem zipWith_append_left {α β γ : Type} (f : α → β → γ) :
    ∀ (xs : List α) (ys zs : List β), xs.length ≤ ys.length →
      List.zipWith f xs (ys ++ zs) = List.zipWith f xs ys := by
  intro xs
  induction xs with
  | nil => intro ys zs _; rfl
  | cons x xs ih =>
      intro ys zs h
      cases ys with
      | nil => simp at h
      | cons y ys =>
          simp only [List.cons_append, List.zipWith_cons_cons]
          rw [ih ys zs (by simpa using h)]

theorem busReorder_perm (bus : List BusRow) : (busReorder bus).Perm bus := by
  have h := List.filter_append_perm (fun b => !(oosB b)) bus
  have h2 : bus.filter (fun b => !(!(oosB b))) = bus.filter (fun b => oosB b) := by
    apply List.filter_congr
    intro x _
    simp
  rw [h2] at h
  exact h

theorem busReorder_length (bus : List BusRow) :
    (busReorder bus).length = bus.length :=
  (busReorder_perm bus).length_eq

theorem ppcBusOf_closed (bus : List BusRow) :
    ppcBusOf bus =
      renumberBusI 0 (bus.filter (fun b => !(oosB b))) ++
        renumberBusI ((bus.filter (fun b => !(oosB b))).length)
          (bus.filter (fun b => oosB b)) := by
  rw [ppcBusOf, busReorder, renumberBusI_append]
  simp

theorem ppciBusOf_closed (bus : List BusRow) :
    ppciBusOf bus = renumberBusI 0 (bus.filter (fun b => !(oosB b))) := by
  rw [ppciBusOf, ppcBusOf_closed]
  rw [zipWith_append_left _ _ _ _ (by rw [renumberBusI_length])]
  exact zipWith_copy_renumber 0 _

/-! ## Characterisation of the renumbering map `e2i` -/

theorem busReorder_map_perm (bus : List BusRow)
    (Hperm : (bus.map BusRow.bus_i).Perm (List.range bus.length)) :
    ((busReorder bus).map BusRow.bus_i).Perm (List.range bus.length) :=
  ((busReorder_perm bus).map BusRow.bus_i).trans Hperm

theorem busReorder_ids_nodup (bus : List BusRow)
    (Hperm : (bus.map BusRow.bus_i).Perm (List.range bus.length)) :
    ((busReorder bus).map BusRow.bus_i).Nodup :=
  (busReorder_map_perm bus Hperm).symm.nodup (List.nodup_range _)

theorem e2iOf_getD_at (bus : List BusRow)
    (Hperm : (bus.map BusRow.bus_i).Perm (List.range bus.length))
    {k : ℕ} (hk : k < (busReorder bus).length) :
    (e2iOf bus).getD ((busReorder bus)[k].bus_i) 0 = k := by
  have hnd := busReorder_ids_nodup bus Hperm
  have hk2 : k < ((busReorder bus).map BusRow.bus_i).length := by
    simpa using hk
  have hmem : ((busReorder bus).map BusRow.bus_i)[k] ∈
      ((busReorder bus).map BusRow.bus_i) := List.getElem_mem hk2
  have hlt : ((busReorder bus).map BusRow.bus_i)[k] <
      ((busReorder bus).map BusRow.bus_i).length := by
    rw [List.length_map, busReorder_length]
    exact List.mem_range.mp ((busReorder_map_perm bus Hperm).mem_iff.mp hmem)
  have h := buildE2i_getD hnd hk2 hlt
  rw [List.getElem_map] at h
  exact h

theorem e2iOf_getD_of_getElem (bus : List BusRow)
    (Hperm : (bus.map BusRow.bus_i).Perm (List.range bus.length))
    {b : BusRow} {k : ℕ} (hk : k < (busReorder bus).length)
    (hb : (busReorder bus)[k] = b) :
    (e2iOf bus).getD b.bus_i 0 = k := by
  subst hb
  exact e2iOf_getD_at bus Hperm hk

theorem mem_busReorder_pos (bus : List BusRow) {b : BusRow} (hb : b ∈ bus) :
    ∃ k, ∃ (hk : k < (busReorder bus).length), (busReorder bus)[k] = b :=
  List.mem_iff_getElem.mp ((busReorder_perm bus).mem_iff.mpr hb)

theorem busReorder_getElem_left (bus : List BusRow) {k : ℕ}
    (hk : k < (bus.filter (fun b => !(oosB b))).length)
    {hK : k < (busReorder bus).length} :
    (busReorder bus)[k] = (bus.filter (fun b => !(oosB b)))[k] := by
  rw [busReorder] at *
  exact List.getElem_append_left hk

theorem busReorder_inservice_lt (bus : List BusRow) {k : ℕ}
    (hk : k < (busReorder bus).length)
    (hin : oosB ((busReorder bus)[k]) = false) :
    k < (bus.filter (fun b => !(oosB b))).length := by
  by_contra hge
  push_neg at hge
  have hk2 : k < ((bus.filter (fun b => !(oosB b))) ++
      (bus.filter (fun b => oosB b))).length := hk
  have heq : (busReorder bus)[k] =
      ((bus.filter (fun b => !(oosB b))) ++
        (bus.filter (fun b => oosB b)))[k] := rfl
  rw [List.getElem_append_right hge] at heq
  have hb2 : k - (bus.filter (fun b => !(oosB b))).length <
      (bus.filter (fun b => oosB b)).length := by
    simp only [List.length_append] at hk2
    omega
  have hmem : ((bus.filter (fun b => oosB b))[k -
      (bus.filter (fun b => !(oosB b))).length]) ∈
      bus.filter (fun b => oosB b) := List.getElem_mem hb2
  have hoos := (List.mem_filter.mp hmem).2
  rw [← heq] at hoos
  rw [hin] at hoos
  exact absurd hoos (by decide)

theorem inservice_pos_busReorder (bus : List BusRow) {b : BusRow}
    (hb : b ∈ bus) (hin : oosB b = false) :
    ∃ k, ∃ (hk : k < (busReorder bus).length),
      (busReorder bus)[k] = b ∧ k < (bus.filter (fun b => !(oosB b))).length := by
  have hbA : b ∈ bus.filter (fun b => !(oosB b)) :=
    List.mem_filter.mpr ⟨hb, by simp [hin]⟩
  obtain ⟨k, hk, hkb⟩ := List.mem_iff_getElem.mp hbA
  have hK : k < (busReorder bus).length := by
    rw [busReorder_length]
    calc k < (bus.filter (fun b => !(oosB b))).length := hk
    _ ≤ bus.length := List.length_filter_le _ _
  exact ⟨k, hK, (busReorder_getElem_left bus hk).trans hkb, hk⟩

theorem n2iOf_getD (bus : List BusRow) {j : ℕ} (hj : j < bus.length) :
    ((ppcBusOf bus).map BusRow.bus_i).getD j 0 = j := by
  rw [ppcBusOf, renumberBusI_map_bus_i, busReorder_length]
  rw [List.getD_eq_getElem _ _ (by simpa using hj)]
  simp [List.getElem_range']

theorem bsOf_getD (bus : List BusRow) {k : ℕ}
    (hk : k < (busReorder bus).length) :
    (((ppcBusOf bus).map BusRow.bus_type).map (fun t => !(t == busTypeNone))).getD
        k false = !((busReorder bus)[k].bus_type == busTypeNone) := by
  rw [ppcBusOf, renumberBusI_map_bus_type, List.map_map]
  rw [List.getD_eq_getElem _ _ (by simpa using hk)]
  simp

theorem hostBusType_eq (bus : List BusRow)
    (hnd : (bus.map BusRow.bus_i).Nodup) {b : BusRow} (hb : b ∈ bus) :
    hostBusType bus b.bus_i = b.bus_type := by
  unfold hostBusType
  cases hfind : bus.find? (fun x => x.bus_i == b.bus_i) with
  | none =>
      have := List.find?_eq_none.mp hfind b hb
      simp at this
  | some x =>
      have hx := List.find?_some hfind
      have hxm := List.mem_of_find?_eq_some hfind
      have hxb : x = b := List.inj_on_of_nodup_map hnd hxm hb (by simpa using hx)
      rw [hxb]

/-! ## Idempotence of the bus compilation steps -/

theorem filter_not_oos_renumber_all (k : ℕ) (l : List BusRow)
    (h : ∀ x ∈ l, oosB x = false) :
    (renumberBusI k l).filter (fun b => !(oosB b)) = renumberBusI k l := by
  induction l generalizing k with
  | nil => rfl
  | cons b rest ih =>
      have hb := h b (by simp)
      rw [renumberBusI, List.filter_cons]
      have hh : (!(oosB { b with bus_i := k })) = true := by
        show (!(oosB b)) = true
        simp [hb]
      rw [if_pos hh, ih (k + 1) (fun x hx => h x (List.mem_cons_of_mem _ hx))]

theorem filter_oos_renumber_all_false (k : ℕ) (l : List BusRow)
    (h : ∀ x ∈ l, oosB x = false) :
    (renumberBusI k l).filter (fun b => oosB b) = [] := by
  induction l generalizing k with
  | nil => rfl
  | cons b rest ih =>
      have hb := h b (by simp)
      rw [renumberBusI, List.filter_cons]
      have hh : oosB { b with bus_i := k } = false := by
        show oosB b = false
        exact hb
      rw [hh]
      simpa using ih (k + 1) (fun x hx => h x (List.mem_cons_of_mem _ hx))

theorem filter_not_oos_renumber_all_true (k : ℕ) (l : List BusRow)
    (h : ∀ x ∈ l, oosB x = true) :
    (renumberBusI k l).filter (fun b => !(oosB b)) = [] := by
  induction l generalizing k with
  | nil => rfl
  | cons b rest ih =>
      have hb := h b (by simp)
      rw [renumberBusI, List.filter_cons]
      have hh : (!(oosB { b with bus_i := k })) = false := by
        show (!(oosB b)) = false
        simp [hb]
      rw [hh]
      simpa using ih (k + 1) (fun x hx => h x (List.mem_cons_of_mem _ hx))

theorem filter_oos_renumber_all_true (k : ℕ) (l : List BusRow)
    (h : ∀ x ∈ l, oosB x = true) :
    (renumberBusI k l).filter (fun b => oosB b) = renumberBusI k l := by
  induction l generalizing k with
  | nil => rfl
  | cons b rest ih =>
      have hb := h b (by simp)
      rw [renumberBusI, List.filter_cons]
      have hh : oosB { b with bus_i := k } = true := by
        show oosB b = true
        exact hb
      rw [if_pos hh, ih (k + 1) (fun x hx => h x (List.mem_cons_of_mem _ hx))]

theorem zipWith_copy_self (l : List BusRow) :
    List.zipWith (fun d s => { d with bus_i := s.bus_i }) l l = l := by
  induction l with
  | nil => rfl
  | cons b rest ih => simp [ih]

theorem mem_filter_not_oos (bus : List BusRow) {x : BusRow}
    (hx : x ∈ bus.filter (fun b => !(oosB b))) : oosB x = false := by
  have := (List.mem_filter.mp hx).2
  simpa using this

theorem mem_filter_oos (bus : List BusRow) {x : BusRow}
    (hx : x ∈ bus.filter (fun b => oosB b)) : oosB x = true :=
  (List.mem_filter.mp hx).2

theorem busReorder_of_ppcBusOf (bus : List BusRow) :
    busReorder (ppcBusOf bus) = ppcBusOf bus := by
  rw [ppcBusOf_closed, busReorder, List.filter_append, List.filter_append]
  rw [filter_not_oos_renumber_all 0 _ (fun x hx => mem_filter_not_oos bus hx)]
  rw [filter_not_oos_renumber_all_true _ _ (fun x hx => mem_filter_oos bus hx)]
  rw [filter_oos_renumber_all_false 0 _ (fun x hx => mem_filter_not_oos bus hx)]
  rw [filter_oos_renumber_all_true _ _ (fun x hx => mem_filter_oos bus hx)]
  simp

theorem ppcBusOf_idem (bus : List BusRow) :
    ppcBusOf (ppcBusOf bus) = ppcBusOf bus := by
  conv_lhs =>
    rw [ppcBusOf, busReorder_of_ppcBusOf, ppcBusOf_closed bus,
      renumberBusI_append, renumberBusI_idem, renumberBusI_length,
      Nat.zero_add, renumberBusI_idem]
  rw [ppcBusOf_closed bus]

theorem ppciBusOf_of_ppcBusOf (bus : List BusRow) :
    ppciBusOf (ppcBusOf bus) = ppciBusOf bus := by
  rw [ppciBusOf, ppcBusOf_idem]
  conv_lhs =>
    rw [ppcBusOf_closed, List.filter_append]
    rw [filter_not_oos_renumber_all 0 _ (fun x hx => mem_filter_not_oos bus hx)]
    rw [filter_not_oos_renumber_all_true _ _ (fun x hx => mem_filter_oos bus hx)]
    rw [List.append_nil]
  rw [zipWith_append_left _ _ _ _ (Nat.le_refl _)]
  rw [zipWith_copy_self]
  rw [ppciBusOf_closed]

/-! ## Claim C6 -/

/-- C6: for an external case whose bus identifiers form a permutation of
`[0, number of buses)`, the old-to-new map `e2i` built during
ppc-to-ppci compilation, restricted to in-service (non-isolated) buses,
is a bijection onto `[0, n)` (injective, into, and onto), where `n` is
the in-service bus count; the internal case contains exactly those `n`
buses with `BUS_I` values `0, ..., n-1` in order (same rows, types
preserved); and compiling the already-compiled external bus table again
yields the identical internal bus table, so re-running the compilation
on an unchanged network yields the same internal bus ordering. -/
theorem c6_e2i_bijection (p : PpcCase) (lk : List ℤ)
    (Hperm : (p.bus.map BusRow.bus_i).Perm (List.range p.bus.length)) :
    (∀ b1 ∈ p.bus, ∀ b2 ∈ p.bus, oosB b1 = false → oosB b2 = false →
      (ppc2ppci p lk).e2i.getD b1.bus_i 0 = (ppc2ppci p lk).e2i.getD b2.bus_i 0 →
      b1.bus_i = b2.bus_i) ∧
    (∀ b ∈ p.bus, oosB b = false →
      (ppc2ppci p lk).e2i.getD b.bus_i 0 <
        (p.bus.filter (fun x => !(oosB x))).length) ∧
    (∀ j < (p.bus.filter (fun x => !(oosB x))).length,
      ∃ b ∈ p.bus, oosB b = false ∧ (ppc2ppci p lk).e2i.getD b.bus_i 0 = j) ∧
    ((ppc2ppci p lk).ppciBus.map BusRow.bus_i =
      List.range (p.bus.filter (fun x => !(oosB x))).length) ∧
    ((ppc2ppci p lk).ppciBus.map BusRow.bus_type =
      (p.bus.filter (fun x => !(oosB x))).map BusRow.bus_type) ∧
    (ppc2ppci { p with bus := (ppc2ppci p lk).ppcBus } lk).ppciBus =
      (ppc2ppci p lk).ppciBus := by
  have he2i : (ppc2ppci p lk).e2i = e2iOf p.bus := rfl
  have hppcib : (ppc2ppci p lk).ppciBus = ppciBusOf p.bus := rfl
  refine ⟨?_, ?_, ?_, ?_, ?_, ?_⟩
  · intro b1 hb1 b2 hb2 _ _ heq
    obtain ⟨k1, hk1, hbk1⟩ := mem_busReorder_pos p.bus hb1
    obtain ⟨k2, hk2, hbk2⟩ := mem_busReorder_pos p.bus hb2
    rw [he2i, e2iOf_getD_of_getElem p.bus Hperm hk1 hbk1,
        e2iOf_getD_of_getElem p.bus Hperm hk2 hbk2] at heq
    subst heq
    rw [← hbk1, ← hbk2]
  · intro b hb hin
    obtain ⟨k, hk, hbk, hklt⟩ := inservice_pos_busReorder p.bus hb hin
    rw [he2i, e2iOf_getD_of_getElem p.bus Hperm hk hbk]
    exact hklt
  · intro j hj
    have hjR : j < (busReorder p.bus).length := by
      rw [busReorder_length]
      exact lt_of_lt_of_le hj (List.length_filter_le _ _)
    have hget : (busReorder p.bus)[j] = (p.bus.filter (fun x => !(oosB x)))[j] :=
      busReorder_getElem_left p.bus hj
    have hmemA : (p.bus.filter (fun x => !(oosB x)))[j] ∈
        p.bus.filter (fun x => !(oosB x)) := List.getElem_mem hj
    refine ⟨(p.bus.filter (fun x => !(oosB x)))[j], (List.mem_filter.mp hmemA).1,
      mem_filter_not_oos p.bus hmemA, ?_⟩
    rw [he2i, e2iOf_getD_of_getElem p.bus Hperm hjR hget]
  · rw [hppcib, ppciBusOf_closed, renumberBusI_map_bus_i, List.range_eq_range']
  · rw [hppcib, ppciBusOf_closed, renumberBusI_map_bus_type]
  · have hstep : (ppc2ppci { p with bus := (ppc2ppci p lk).ppcBus } lk).ppciBus =
        ppciBusOf (ppcBusOf p.bus) := rfl
    rw [hstep, ppciBusOf_of_ppcBusOf, hppcib]

/-- Witness for C6 at a concrete 3-bus case (identifiers 0,1,2; bus 1
isolated): the internal bus table carries identifiers `[0, 1)`-style
dense numbering and the in-service bus 2 lands below the in-service
count. -/
theorem c6_e2i_bijection_witness :
    ((ppc2ppci ⟨[⟨0, 1⟩, ⟨1, 4⟩, ⟨2, 1⟩], [], []⟩ []).ppciBus.map BusRow.bus_i =
      List.range (([⟨0, 1⟩, ⟨1, 4⟩, (⟨2, 1⟩ : BusRow)].filter
        (fun x => !(oosB x))).length)) ∧
    (ppc2ppci ⟨[⟨0, 1⟩, ⟨1, 4⟩, ⟨2, 1⟩], [], []⟩ []).e2i.getD 2 0 <
      (([⟨0, 1⟩, ⟨1, 4⟩, (⟨2, 1⟩ : BusRow)].filter (fun x => !(oosB x))).length) := by
  have h := c6_e2i_bijection ⟨[⟨0, 1⟩, ⟨1, 4⟩, ⟨2, 1⟩], [], []⟩ [] (by decide)
  exact ⟨h.2.2.2.1, h.2.1 ⟨2, 1⟩ (by decide) (by decide)⟩

/-! ## Mask characterisation for claim C2 -/

theorem exists_host (bus : List BusRow)
    (Hperm : (bus.map BusRow.bus_i).Perm (List.range bus.length))
    {i : ℕ} (hi : i < bus.length) : ∃ b ∈ bus, b.bus_i = i := by
  have : i ∈ bus.map BusRow.bus_i := Hperm.mem_iff.mpr (List.mem_range.mpr hi)
  simpa [List.mem_map] using this

theorem bus_ids_nodup (bus : List BusRow)
    (Hperm : (bus.map BusRow.bus_i).Perm (List.range bus.length)) :
    (bus.map BusRow.bus_i).Nodup :=
  Hperm.symm.nodup (List.nodup_range _)

theorem busStatus_lookup (bus : List BusRow)
    (Hperm : (bus.map BusRow.bus_i).Perm (List.range bus.length))
    {b : BusRow} (hb : b ∈ bus) :
    (((ppcBusOf bus).map BusRow.bus_type).map (fun t => !(t == busTypeNone))).getD
        (((ppcBusOf bus).map BusRow.bus_i).getD ((e2iOf bus).getD b.bus_i 0) 0) false
      = !(b.bus_type == busTypeNone) := by
  obtain ⟨k, hk, hbk⟩ := mem_busReorder_pos bus hb
  rw [e2iOf_getD_of_getElem bus Hperm hk hbk]
  have hkN : k < bus.length := by rw [← busReorder_length]; exact hk
  rw [n2iOf_getD bus hkN, bsOf_getD bus hk, hbk]

theorem brMask_char (bs : List Bool) (n2i : List ℕ) (b : BranchRow)
    (hst : b.br_status = 0 ∨ b.br_status = 1) :
    brMaskOf bs n2i b =
      (decide (0 < b.br_status) && (bs.getD (n2i.getD b.f_bus 0) false &&
        bs.getD (n2i.getD b.t_bus 0) false)) := by
  rw [brMaskOf]
  rcases hst with h | h <;> rw [h] <;>
    generalize bs.getD (n2i.getD b.f_bus 0) false = x <;>
    generalize bs.getD (n2i.getD b.t_bus 0) false = y <;>
    cases x <;> cases y <;> rfl

theorem genMask_iff (bus : List BusRow)
    (Hperm : (bus.map BusRow.bus_i).Perm (List.range bus.length))
    {g : GenRow} (hlt : g.gen_bus < bus.length) :
    genMaskOf (((ppcBusOf bus).map BusRow.bus_type).map (fun t => !(t == busTypeNone)))
        ((ppcBusOf bus).map BusRow.bus_i) (remapGen (e2iOf bus) g) = true ↔
      (0 < g.gen_status ∧ hostBusType bus g.gen_bus ≠ busTypeNone) := by
  obtain ⟨bh, hbh, hid⟩ := exists_host bus Hperm hlt
  have hbs := busStatus_lookup bus Hperm hbh
  rw [hid] at hbs
  have hht : hostBusType bus g.gen_bus = bh.bus_type := by
    rw [← hid]
    exact hostBusType_eq bus (bus_ids_nodup bus Hperm) hbh
  show (decide (0 < g.gen_status) &&
      (((ppcBusOf bus).map BusRow.bus_type).map (fun t => !(t == busTypeNone))).getD
        (((ppcBusOf bus).map BusRow.bus_i).getD ((e2iOf bus).getD g.gen_bus 0) 0)
        false) = true ↔ _
  rw [hbs, hht]
  simp

theorem brMask_iff (bus : List BusRow)
    (Hperm : (bus.map BusRow.bus_i).Perm (List.range bus.length))
    {b : BranchRow} (hf : b.f_bus < bus.length) (ht : b.t_bus < bus.length)
    (hst : b.br_status = 0 ∨ b.br_status = 1) :
    brMaskOf (((ppcBusOf bus).map BusRow.bus_type).map (fun t => !(t == busTypeNone)))
        ((ppcBusOf bus).map BusRow.bus_i) (remapBranch (e2iOf bus) b) = true ↔
      (0 < b.br_status ∧ hostBusType bus b.f_bus ≠ busTypeNone ∧
        hostBusType bus b.t_bus ≠ busTypeNone) := by
  obtain ⟨bf, hbf, hidf⟩ := exists_host bus Hperm hf
  obtain ⟨bt, hbt, hidt⟩ := exists_host bus Hperm ht
  have hbsf := busStatus_lookup bus Hperm hbf
  rw [hidf] at hbsf
  have hbst := busStatus_lookup bus Hperm hbt
  rw [hidt] at hbst
  have hhtf : hostBusType bus b.f_bus = bf.bus_type := by
    rw [← hidf]
    exact hostBusType_eq bus (bus_ids_nodup bus Hperm) hbf
  have hhtt : hostBusType bus b.t_bus = bt.bus_type := by
    rw [← hidt]
    exact hostBusType_eq bus (bus_ids_nodup bus Hperm) hbt
  rw [brMask_char _ _ (remapBranch (e2iOf bus) b) (by exact hst)]
  show (decide (0 < b.br_status) &&
      ((((ppcBusOf bus).map BusRow.bus_type).map (fun t => !(t == busTypeNone))).getD
          (((ppcBusOf bus).map BusRow.bus_i).getD ((e2iOf bus).getD b.f_bus 0) 0) false &&
        (((ppcBusOf bus).map BusRow.bus_type).map (fun t => !(t == busTypeNone))).getD
          (((ppcBusOf bus).map BusRow.bus_i).getD ((e2iOf bus).getD b.t_bus 0) 0) false))
      = true ↔ _
  rw [hbsf, hbst, hhtf, hhtt]
  simp [and_assoc]

/-! ## Claim C2 -/

/-- C2: after ppc-to-ppci compilation, a generator row of the external
case appears (as its renumbered image) in the internal case's gen table
iff its `GEN_STATUS` is positive and the bus type of its host bus is not
isolated (`NONE`); a branch row appears in the internal case's branch
table iff its status flag (the in/out encoding 0 or 1) is positive and
both its from-bus and to-bus are non-isolated.  The statement is
universal over every generator status, every in/out branch status, and
every combination of endpoint bus types, so it covers all
status-combination cases.  (Renumbering preserves bus types, so the
host-bus condition is stated on the original identifiers.) -/
theorem c2_inclusion_iff (p : PpcCase) (lk : List ℤ)
    (Hperm : (p.bus.map BusRow.bus_i).Perm (List.range p.bus.length))
    (Hg : ∀ g ∈ p.gen, g.gen_bus < p.bus.length)
    (Hb : ∀ b ∈ p.branch, b.f_bus < p.bus.length ∧ b.t_bus < p.bus.length)
    (Hbs : ∀ b ∈ p.branch, b.br_status = 0 ∨ b.br_status = 1) :
    (∀ g ∈ p.gen, (remapGen (ppc2ppci p lk).e2i g ∈ (ppc2ppci p lk).ppciGen ↔
      0 < g.gen_status ∧ hostBusType p.bus g.gen_bus ≠ busTypeNone)) ∧
    (∀ b ∈ p.branch, (remapBranch (ppc2ppci p lk).e2i b ∈ (ppc2ppci p lk).ppciBranch ↔
      0 < b.br_status ∧ hostBusType p.bus b.f_bus ≠ busTypeNone ∧
        hostBusType p.bus b.t_bus ≠ busTypeNone)) := by
  have he2i : (ppc2ppci p lk).e2i = e2iOf p.bus := rfl
  have hgen : (ppc2ppci p lk).ppciGen =
      ((p.gen.map (remapGen (e2iOf p.bus))).mergeSort
          (fun a b => Nat.ble a.gen_bus b.gen_bus)).filter
        (genMaskOf
          (((ppcBusOf p.bus).map BusRow.bus_type).map (fun t => !(t == busTypeNone)))
          ((ppcBusOf p.bus).map BusRow.bus_i)) := maskSelect_map _ _
  have hbr : (ppc2ppci p lk).ppciBranch =
      (p.branch.map (remapBranch (e2iOf p.bus))).filter
        (brMaskOf
          (((ppcBusOf p.bus).map BusRow.bus_type).map (fun t => !(t == busTypeNone)))
          ((ppcBusOf p.bus).map BusRow.bus_i)) := maskSelect_map _ _
  constructor
  · intro g hg
    rw [he2i, hgen]
    have hmemS : remapGen (e2iOf p.bus) g ∈
        (p.gen.map (remapGen (e2iOf p.bus))).mergeSort
          (fun a b => Nat.ble a.gen_bus b.gen_bus) :=
      List.mem_mergeSort.mpr (List.mem_map_of_mem _ hg)
    constructor
    · intro hmem
      exact (genMask_iff p.bus Hperm (Hg g hg)).mp (List.mem_filter.mp hmem).2
    · intro hr
      exact List.mem_filter.mpr ⟨hmemS, (genMask_iff p.bus Hperm (Hg g hg)).mpr hr⟩
  · intro b hb
    rw [he2i, hbr]
    have hmemB : remapBranch (e2iOf p.bus) b ∈ p.branch.map (remapBranch (e2iOf p.bus)) :=
      List.mem_map_of_mem _ hb
    constructor
    · intro hmem
      exact (brMask_iff p.bus Hperm (Hb b hb).1 (Hb b hb).2 (Hbs b hb)).mp
        (List.mem_filter.mp hmem).2
    · intro hr
      exact List.mem_filter.mpr
        ⟨hmemB, (brMask_iff p.bus Hperm (Hb b hb).1 (Hb b hb).2 (Hbs b hb)).mpr hr⟩

/-- Witness for C2 at a concrete case: three buses (bus 1 isolated), one
in-service generator at bus 0 and one closed branch from bus 0 to bus 2;
both rows land in the internal tables. -/
theorem c2_inclusion_iff_witness :
    remapGen (ppc2ppci ⟨[⟨0, 1⟩, ⟨1, 4⟩, ⟨2, 1⟩], [⟨0, 1⟩], [⟨0, 2, 1⟩]⟩ []).e2i ⟨0, 1⟩ ∈
      (ppc2ppci ⟨[⟨0, 1⟩, ⟨1, 4⟩, ⟨2, 1⟩], [⟨0, 1⟩], [⟨0, 2, 1⟩]⟩ []).ppciGen ∧
    remapBranch (ppc2ppci ⟨[⟨0, 1⟩, ⟨1, 4⟩, ⟨2, 1⟩], [⟨0, 1⟩], [⟨0, 2, 1⟩]⟩ []).e2i
        ⟨0, 2, 1⟩ ∈
      (ppc2ppci ⟨[⟨0, 1⟩, ⟨1, 4⟩, ⟨2, 1⟩], [⟨0, 1⟩], [⟨0, 2, 1⟩]⟩ []).ppciBranch := by
  have h := c2_inclusion_iff ⟨[⟨0, 1⟩, ⟨1, 4⟩, ⟨2, 1⟩], [⟨0, 1⟩], [⟨0, 2, 1⟩]⟩ []
    (by decide) (by decide) (by decide) (by decide)
  exact ⟨(h.1 ⟨0, 1⟩ (by decide)).mpr (by decide),
    (h.2 ⟨0, 2, 1⟩ (by decide)).mpr (by decide)⟩

/-! ## Claim C5 -/

/-- C5: the lookup remap `_update_lookup_entries`, applied with map
`e2i`, replaces every valid entry `v` (with `v >= 0`) by `e2i[v]`
(well-defined because valid entries lie below the map's length) and
leaves every negative "not present" sentinel unchanged with its original
value. -/
theorem c5_lookup_remap (lookup : List ℤ) (e2i : List ℕ)
    (H : ∀ v ∈ lookup, 0 ≤ v → v.toNat < e2i.length) :
    (updateLookupEntries lookup e2i).length = lookup.length ∧
    ∀ i, (hi : i < lookup.length) →
      (0 ≤ lookup[i] →
        (lookup[i]).toNat < e2i.length ∧
        (updateLookupEntries lookup e2i).getD i 0 =
          ((e2i.getD (lookup[i]).toNat 0 : ℕ) : ℤ)) ∧
      (lookup[i] < 0 →
        (updateLookupEntries lookup e2i).getD i 0 = lookup[i]) := by
  refine ⟨by simp [updateLookupEntries], ?_⟩
  intro i hi
  have hlen : i < (updateLookupEntries lookup e2i).length := by
    simpa [updateLookupEntries] using hi
  constructor
  · intro hpos
    refine ⟨H lookup[i] (List.getElem_mem hi) hpos, ?_⟩
    rw [List.getD_eq_getElem _ _ hlen]
    simp only [updateLookupEntries, List.getElem_map]
    rw [if_pos hpos]
  · intro hneg
    rw [List.getD_eq_getElem _ _ hlen]
    simp only [updateLookupEntries, List.getElem_map]
    rw [if_neg (not_le.mpr hneg)]

/-- Witness for C5: on the lookup `[-1, 2, 0]` with map `[5, 6, 7]`, the
sentinel at position 0 is untouched and the valid entry 2 at position 1
is replaced by the image 7. -/
theorem c5_lookup_remap_witness :
    (updateLookupEntries [-1, 2, 0] [5, 6, 7]).getD 0 0 = -1 ∧
    (updateLookupEntries [-1, 2, 0] [5, 6, 7]).getD 1 0 = 7 := by
  have h := c5_lookup_remap [-1, 2, 0] [5, 6, 7] (by decide)
  refine ⟨(h.2 0 (by decide)).2 (by decide), ?_⟩
  have h2 := (h.2 1 (by decide)).1 (by decide)
  exact h2.2.trans (by decide)

/-! ## Claim C3 -/

theorem maskSelect_sublist {α : Type} :
    ∀ (xs : List α) (m : List Bool), (maskSelect xs m).Sublist xs := by
  intro xs
  induction xs with
  | nil =>
      intro m
      simp [maskSelect]
  | cons x xs ih =>
      intro m
      cases m with
      | nil =>
          have hstep : maskSelect (x :: xs) ([] : List Bool) = [] := by
            simp [maskSelect]
          rw [hstep]
          exact List.nil_sublist _
      | cons b bs =>
          cases b with
          | false =>
              have hstep : maskSelect (x :: xs) (false :: bs) = maskSelect xs bs := by
                simp [maskSelect]
              rw [hstep]
              exact (ih bs).cons x
          | true =>
              have hstep : maskSelect (x :: xs) (true :: bs) = x :: maskSelect xs bs := by
                simp [maskSelect]
              rw [hstep]
              exact (ih bs).cons₂ x

/-- C3: the branch and gen inclusion masks computed by the compiler are
exactly the masks stored in the compiled case's internal cache, and
`persistInternalMasks` (modelled from the spec) carries that cache to
the case the incremental updater reads; `_update_ppc` then re-slices the
branch and gen tables using exactly the masks read from that cache -
stated for an arbitrary stored case `st`, so no recomputation of the
masks can be involved - and never re-runs bus renumbering: the external
case passes through unchanged, and all three internal tables are
sublists of the stored tables (rows kept verbatim, in their original
order, with bus references untouched). -/
theorem c3_masks_persist_and_reuse (p : PpcCase) (lk : List ℤ) (st : PpcStored) :
    ((persistInternalMasks (ppc2ppci p lk)).branch_is = (ppc2ppci p lk).branch_is ∧
      (persistInternalMasks (ppc2ppci p lk)).gen_is = (ppc2ppci p lk).gen_is ∧
      (updatePPC (persistInternalMasks (ppc2ppci p lk))).2.branch =
        maskSelect (ppc2ppci p lk).ppcBranch (ppc2ppci p lk).branch_is ∧
      (updatePPC (persistInternalMasks (ppc2ppci p lk))).2.gen =
        maskSelect (ppc2ppci p lk).ppcGen (ppc2ppci p lk).gen_is) ∧
    ((updatePPC st).2.branch = maskSelect st.branch st.branch_is ∧
      (updatePPC st).2.gen = maskSelect st.gen st.gen_is ∧
      (updatePPC st).1 = st ∧
      (updatePPC st).2.branch.Sublist st.branch ∧
      (updatePPC st).2.gen.Sublist st.gen ∧
      (updatePPC st).2.bus.Sublist st.bus) := by
  refine ⟨⟨rfl, rfl, rfl, rfl⟩, rfl, rfl, rfl, ?_, ?_, ?_⟩
  · exact maskSelect_sublist st.branch st.branch_is
  · exact maskSelect_sublist st.gen st.gen_is
  · exact List.filter_sublist st.bus

/-! ## Claim C7 -/

theorem ne_of_last_digit {vg s : String} {c : Char}
    (hlast : vg.data.getLast? = some c) (hdig : c.isDigit = true)
    (d : Char) (hs : s.data.getLast? = some d) (hd : d.isDigit = false) :
    vg ≠ s := by
  intro h
  subst h
  rw [hlast] at hs
  injection hs with hcd
  rw [← hcd] at hd
  rw [hd] at hdig
  exact Bool.false_ne_true hdig

/-- Counterexample for C7: the empty vector-group string reaches
`vector_group[-1]` and fails with a string-index error, not with the
unknown/not-implemented error (nor with the phase-shift error) that the
claim asserts for every string outside the implemented set. -/
theorem c7_counterexample :
    processGroup "" = .error .emptyGroupIndex ∧
    ZeroSeqError.emptyGroupIndex ≠ ZeroSeqError.unknownGroup ∧
    ZeroSeqError.emptyGroupIndex ≠ ZeroSeqError.phaseShiftSuffix :=
  ⟨rfl, by decide, by decide⟩

/-- C7 (amended): vector groups exactly `Yy`, `Yd`, `Dy`, `Dd` leave
their bucket forced out of service with no error raised and no further
impedance computation; every vector-group string whose last character is
a digit raises the phase-shift configuration error; every other
NONEMPTY string outside the implemented set raises the
unknown/not-implemented error; the empty string is the one exception -
it fails with a string-index error rather than the unknown-group
error. -/
theorem c7_vector_group_dispatch :
    (∀ vg ∈ ["Yy", "Yd", "Dy", "Dd"], processGroup vg = .ok .forcedOutOfService) ∧
    (∀ (vg : String) (c : Char), vg.data.getLast? = some c → c.isDigit = true →
      processGroup vg = .error .phaseShiftSuffix) ∧
    (∀ (vg : String) (c : Char), vg ∉ ["Yy", "Yd", "Dy", "Dd"] →
      vg ∉ ["Dyn", "YNd", "Yyn", "YNyn", "YNy"] →
      vg.data.getLast? = some c → c.isDigit = false →
      processGroup vg = .error .unknownGroup) ∧
    processGroup "" = .error .emptyGroupIndex := by
  refine ⟨?_, ?_, ?_, rfl⟩
  · intro vg hvg
    fin_cases hvg <;> rfl
  · intro vg c hlast hdig
    have hne : ∀ (s : String) (d : Char), s.data.getLast? = some d →
        d.isDigit = false → vg ≠ s :=
      fun s d hs hd => ne_of_last_digit hlast hdig d hs hd
    have h1 : vg ∉ ["Yy", "Yd", "Dy", "Dd"] := by
      simp only [List.mem_cons, List.not_mem_nil, or_false, not_or]
      exact ⟨hne "Yy" 'y' rfl rfl, hne "Yd" 'd' rfl rfl,
        hne "Dy" 'y' rfl rfl, hne "Dd" 'd' rfl rfl⟩
    rw [processGroup, if_neg h1, if_neg (hne "Dyn" 'n' rfl rfl),
      if_neg (hne "YNd" 'd' rfl rfl), if_neg (hne "Yyn" 'n' rfl rfl),
      if_neg (hne "YNyn" 'n' rfl rfl), if_neg (hne "YNy" 'y' rfl rfl)]
    simp [hlast, hdig]
  · intro vg c hm4 hm5 hlast hdig
    have hd1 : vg ≠ "Dyn" := by intro h; subst h; exact hm5 (by decide)
    have hd2 : vg ≠ "YNd" := by intro h; subst h; exact hm5 (by decide)
    have hd3 : vg ≠ "Yyn" := by intro h; subst h; exact hm5 (by decide)
    have hd4 : vg ≠ "YNyn" := by intro h; subst h; exact hm5 (by decide)
    have hd5 : vg ≠ "YNy" := by intro h; subst h; exact hm5 (by decide)
    rw [processGroup, if_neg hm4, if_neg hd1, if_neg hd2, if_neg hd3,
      if_neg hd4, if_neg hd5]
    simp [hlast, hdig]

/-- Witness for C7 at concrete vector groups: `Yy` is skipped as forced
out of service, `Dyn5` raises the phase-shift error, `Xy` raises the
unknown-group error. -/
theorem c7_vector_group_dispatch_witness :
    processGroup "Yy" = .ok .forcedOutOfService ∧
    processGroup "Dyn5" = .error .phaseShiftSuffix ∧
    processGroup "Xy" = .error .unknownGroup := by
  have h := c7_vector_group_dispatch
  exact ⟨h.1 "Yy" (by decide), h.2.1 "Dyn5" '5' rfl rfl,
    h.2.2.1 "Xy" 'y' (by decide) (by decide) rfl rfl⟩

/-! ## Claim C9 -/

theorem processGroups_ok (groups : List String)
    (h : ∀ g ∈ groups, ∃ a, processGroup g = .ok a) :
    processGroups groups = .ok () := by
  induction groups with
  | nil => rfl
  | cons g rest ih =>
      obtain ⟨a, ha⟩ := h g (by simp)
      simp only [processGroups, ha]
      exact ih (fun x hx => h x (List.mem_cons_of_mem _ hx))

/-- C9: under zero-sequence branch construction, if a three-winding
transformer entry is present in the branch lookup, the build raises: no
ok result is ever returned (three-winding transformers are never
silently accepted), and when the transformer groups themselves are
well-formed the raised error is exactly the three-winding rejection.
(The source spells the raise as `raise NotImplemented(...)`, which at
run time raises a `TypeError`; either way an exception aborts the
build before a compiled result is returned.) -/
theorem c9_trafo3w_rejected (lookupKeys : List String) (groups : List String)
    (h3w : "trafo3w" ∈ lookupKeys) :
    (∀ u : Unit, buildBranchPpcZero lookupKeys groups ≠ .ok u) ∧
    ((∀ g ∈ groups, ∃ a, processGroup g = .ok a) →
      buildBranchPpcZero lookupKeys groups = .error .trafo3wUnsupported) := by
  constructor
  · intro u h
    cases hpg : processGroups groups with
    | error e =>
        simp [buildBranchPpcZero, hpg] at h
    | ok v =>
        simp [buildBranchPpcZero, hpg, h3w] at h
  · intro hall
    simp [buildBranchPpcZero, processGroups_ok groups hall, h3w]

/-- Witness for C9: a branch lookup containing lines, two-winding and
three-winding transformers, with one well-formed `Dyn` group, makes the
build abort with the three-winding rejection. -/
theorem c9_trafo3w_rejected_witness :
    buildBranchPpcZero ["line", "trafo", "trafo3w"] ["Dyn"] =
      .error .trafo3wUnsupported := by
  have h := c9_trafo3w_rejected ["line", "trafo", "trafo3w"] ["Dyn"] (by decide)
  refine h.2 ?_
  intro g hg
  fin_cases hg
  exact ⟨.dynShunt, rfl⟩

/-! ## Claim C8 -/

/-- C8: with at least one in-service external grid, the zero-sequence
external-grid builder raises the missing-column error for
`s_sc_<case>_mva` when that column is absent; raises the missing-column
error for `rx_<case>` when the first column is present and the second
absent; and, when both columns are present, raises neither of those
errors - in the modes that define the voltage factor `c` (short circuit
and three-phase power flow) the computation proceeds and returns the
updated bus table. -/
theorem c8_ext_grid_column_errors (mode : ZMode) (hasSSc hasRx : Bool)
    (eg : List EgRow) (busTab : List (ℚ × ℚ)) (hne : eg ≠ []) :
    (hasSSc = false →
      addExtGridScImpedanceZero mode hasSSc hasRx eg busTab = .error .missingSScMva) ∧
    (hasSSc = true → hasRx = false →
      addExtGridScImpedanceZero mode hasSSc hasRx eg busTab = .error .missingRx) ∧
    (hasSSc = true → hasRx = true →
      addExtGridScImpedanceZero mode hasSSc hasRx eg busTab ≠ .error .missingSScMva ∧
      addExtGridScImpedanceZero mode hasSSc hasRx eg busTab ≠ .error .missingRx) ∧
    (hasSSc = true → hasRx = true → mode ≠ ZMode.other →
      ∃ out, addExtGridScImpedanceZero mode hasSSc hasRx eg busTab = .ok out) := by
  have hne2 : eg.isEmpty = false := by
    cases eg with
    | nil => exact absurd rfl hne
    | cons e rest => rfl
  refine ⟨?_, ?_, ?_, ?_⟩
  · intro h
    subst h
    simp [addExtGridScImpedanceZero, hne2]
  · intro h1 h2
    subst h1
    subst h2
    simp [addExtGridScImpedanceZero, hne2]
  · intro h1 h2
    subst h1
    subst h2
    cases mode <;> simp [addExtGridScImpedanceZero, hne2]
  · intro h1 h2 h3
    subst h1
    subst h2
    cases mode with
    | other => exact absurd rfl h3
    | sc =>
        refine ⟨assignShuntGrouped busTab (eg.map (fun e =>
          (e.bus, (CQ.inv ⟨e.r0, e.x0⟩).re, (CQ.inv ⟨e.r0, e.x0⟩).im))), ?_⟩
        simp [addExtGridScImpedanceZero, hne2]
    | pf3ph =>
        refine ⟨assignShuntGrouped busTab (eg.map (fun e =>
          (e.bus, (CQ.inv ⟨e.r0, e.x0⟩).re, (CQ.inv ⟨e.r0, e.x0⟩).im))), ?_⟩
        simp [addExtGridScImpedanceZero, hne2]

/-- Witness for C8 at a concrete external grid (bus 0, zero-sequence
impedance 1 + 2j) in short-circuit mode with both columns present:
neither missing-column error is raised and a result is produced. -/
theorem c8_ext_grid_column_errors_witness :
    addExtGridScImpedanceZero ZMode.sc true true [⟨0, 1, 2⟩] [(0, 0)] ≠
      Except.error EgError.missingSScMva ∧
    ∃ out, addExtGridScImpedanceZero ZMode.sc true true [⟨0, 1, 2⟩] [(0, 0)] =
      .ok out := by
  have h := c8_ext_grid_column_errors ZMode.sc true true [⟨0, 1, 2⟩] [(0, 0)]
    (by decide)
  exact ⟨(h.2.2.1 rfl rfl).1, h.2.2.2 rfl rfl (by decide)⟩

/-! ## Claim C10 -/

theorem sumAtBus_go (es : List (ℕ × ℚ × ℚ)) (b : ℕ) (acc : ℚ × ℚ) :
    es.foldl (fun acc e => if e.1 == b then (acc.1 + e.2.1, acc.2 + e.2.2) else acc)
      acc =
    (acc.1 + ((es.filter (fun e => e.1 == b)).map (fun e => e.2.1)).sum,
     acc.2 + ((es.filter (fun e => e.1 == b)).map (fun e => e.2.2)).sum) := by
  induction es generalizing acc with
  | nil => simp
  | cons e rest ih =>
      rw [List.foldl_cons, List.filter_cons]
      by_cases h : e.1 == b
      · rw [if_pos h, if_pos h, ih]
        simp [add_assoc]
      · rw [if_neg h, if_neg h, ih]

theorem sumAtBus_eq (es : List (ℕ × ℚ × ℚ)) (b : ℕ) :
    sumAtBus es b =
      (((es.filter (fun e => e.1 == b)).map (fun e => e.2.1)).sum,
       ((es.filter (fun e => e.1 == b)).map (fun e => e.2.2)).sum) := by
  have h := sumAtBus_go es b (0, 0)
  simpa [sumAtBus] using h

theorem assignShuntGrouped_length (busTab : List (ℚ × ℚ))
    (entries : List (ℕ × ℚ × ℚ)) :
    (assignShuntGrouped busTab entries).length = busTab.length := by
  rw [assignShuntGrouped, scatterSet_length]

theorem assignShuntGrouped_getElem?_host (busTab : List (ℚ × ℚ))
    (entries : List (ℕ × ℚ × ℚ)) {i : ℕ} (hi : i < busTab.length)
    (hhost : ∃ e ∈ entries, e.1 = i) :
    (assignShuntGrouped busTab entries)[i]? = some (sumAtBus entries i) := by
  apply scatterSet_getElem?_mem
  · obtain ⟨e, he, hei⟩ := hhost
    exact List.mem_map.mpr ⟨e, he, by rw [hei]⟩
  · intro w hw
    obtain ⟨e, he, heq⟩ := List.mem_map.mp hw
    have h1 := congrArg Prod.fst heq
    have h2 := congrArg Prod.snd heq
    simp only [Prod.fst, Prod.snd] at h1 h2
    rw [← h2, h1]
  · exact hi

theorem assignShuntGrouped_getElem?_nonhost (busTab : List (ℚ × ℚ))
    (entries : List (ℕ × ℚ × ℚ)) {i : ℕ}
    (h : ∀ e ∈ entries, e.1 ≠ i) :
    (assignShuntGrouped busTab entries)[i]? = busTab[i]? := by
  apply scatterSet_getElem?_not_mem
  rw [List.map_map]
  intro hm
  obtain ⟨e, he, hei⟩ := List.mem_map.mp hm
  exact h e he hei

/-- C10: the zero-sequence external-grid builder OVERWRITES rather than
accumulates the shunt admittance of each affected bus row: in the modes
that reach the assignment (short circuit, three-phase power flow), with
both required columns present and all grid buses in range, it returns a
bus table in which every bus hosting at least one in-service external
grid carries exactly the sum of the grounding admittances
`y0 = 1/(r0 + j*x0)` of the grids at that bus - the bus's previous
`(GS, BS)` value does not appear, i.e. is discarded (line 548-549 uses
`=`, unlike the `+=` accumulation of the transformer path modelled by
`addShuntGrouped`) - while every bus hosting no grid keeps its previous
value. -/
theorem c10_ext_grid_shunt_overwrite (mode : ZMode) (eg : List EgRow)
    (busTab : List (ℚ × ℚ)) (hmode : mode ≠ ZMode.other)
    (hbus : ∀ e ∈ eg, e.bus < busTab.length) :
    ∃ out, addExtGridScImpedanceZero mode true true eg busTab = .ok out ∧
      out.length = busTab.length ∧
      ∀ i, i < busTab.length →
        ((∃ e ∈ eg, e.bus = i) →
          out[i]? = some
            (((eg.filter (fun e => e.bus == i)).map
                (fun e => (CQ.inv ⟨e.r0, e.x0⟩).re)).sum,
             ((eg.filter (fun e => e.bus == i)).map
                (fun e => (CQ.inv ⟨e.r0, e.x0⟩).im)).sum)) ∧
        ((∀ e ∈ eg, e.bus ≠ i) → out[i]? = busTab[i]?) := by
  by_cases hcase : eg = []
  · subst hcase
    refine ⟨busTab, rfl, rfl, ?_⟩
    intro i _
    exact ⟨fun ⟨e, he, _⟩ => absurd he (List.not_mem_nil e), fun _ => rfl⟩
  · have hne2 : eg.isEmpty = false := by
      cases eg with
      | nil => exact absurd rfl hcase
      | cons e rest => rfl
    refine ⟨assignShuntGrouped busTab (eg.map (fun e =>
      (e.bus, (CQ.inv ⟨e.r0, e.x0⟩).re, (CQ.inv ⟨e.r0, e.x0⟩).im))), ?_, ?_, ?_⟩
    · cases mode with
      | other => exact absurd rfl hmode
      | sc => simp [addExtGridScImpedanceZero, hne2]
      | pf3ph => simp [addExtGridScImpedanceZero, hne2]
    · exact assignShuntGrouped_length _ _
    · intro i hi
      constructor
      · rintro ⟨e, he, hei⟩
        rw [assignShuntGrouped_getElem?_host busTab _ hi
          ⟨(e.bus, (CQ.inv ⟨e.r0, e.x0⟩).re, (CQ.inv ⟨e.r0, e.x0⟩).im),
            List.mem_map.mpr ⟨e, he, rfl⟩, hei⟩]
        rw [sumAtBus_eq, List.filter_map, List.map_map, List.map_map]
        rfl
      · intro hnon
        apply assignShuntGrouped_getElem?_nonhost
        intro c hc
        obtain ⟨e, he, hce⟩ := List.mem_map.mp hc
        rw [← hce]
        exact hnon e he

/-- Witness for C10: two external grids at bus 0 (grounding admittances
1 and -j), initial shunts (5, 7) and (3, 4): the builder overwrites bus
0 with the sum (1, -1), discarding (5, 7), and leaves bus 1 at (3, 4). -/
theorem c10_ext_grid_shunt_overwrite_witness :
    ∃ out, addExtGridScImpedanceZero ZMode.sc true true
        [⟨0, 1, 0⟩, ⟨0, 0, 1⟩] [(5, 7), (3, 4)] = .ok out ∧
      out[0]? = some ((1 : ℚ), (-1 : ℚ)) ∧ out[1]? = some ((3 : ℚ), (4 : ℚ)) := by
  obtain ⟨out, hok, hlen, hpt⟩ := c10_ext_grid_shunt_overwrite ZMode.sc
    [⟨0, 1, 0⟩, ⟨0, 0, 1⟩] [(5, 7), (3, 4)] (by decide) (by decide)
  refine ⟨out, hok, ?_, ?_⟩
  · rw [(hpt 0 (by decide)).1 ⟨⟨0, 1, 0⟩, by decide, rfl⟩]
    norm_num [CQ.inv]
  · rw [(hpt 1 (by decide)).2 (by decide)]
    rfl

/-! ## Claim C1: computation lemmas for the `YNyn` block -/

theorem ynynLoopStep_eq_case (base : ℤ) (ts : List TrafoZ)
    (st : List BranchZ × List (ℕ × ℚ × ℚ)) (t : TrafoZ)
    (h : zaOf t = zbOf t) :
    ynynLoopStep base ts st t =
      (st.1.map (fun r => { r with br_b := (-CQ.iUnit).div (zaOf t) }),
       st.2 ++ ts.map (fun u => (u.lv_bus, (0 : ℚ), (0 : ℚ)))) := by
  rw [ynynLoopStep, if_pos h]

theorem ynynLoopStep_gt_case (base : ℤ) (ts : List TrafoZ)
    (st : List BranchZ × List (ℕ × ℚ × ℚ)) (t : TrafoZ)
    (hne : ¬(zaOf t = zbOf t)) (hgt : cqLt (zbOf t) (zaOf t)) :
    ynynLoopStep base ts st t =
      (st.1.map (fun r => { r with br_b := (-CQ.iUnit).div (zaOf t) }),
       st.2 ++ ts.map (fun u =>
         (u.hv_bus,
          (CQ.inv ((zaOf t * zbOf t) / (zaOf t - zbOf t))).re * inServQ u * (base : ℚ),
          (CQ.inv ((zaOf t * zbOf t) / (zaOf t - zbOf t))).im * inServQ u * (base : ℚ)))) := by
  rw [ynynLoopStep, if_neg hne, if_pos hgt]

theorem ynynLoopStep_lt_case (base : ℤ) (ts : List TrafoZ)
    (st : List BranchZ × List (ℕ × ℚ × ℚ)) (t : TrafoZ)
    (hne : ¬(zaOf t = zbOf t)) (hngt : ¬cqLt (zbOf t) (zaOf t))
    (hlt : cqLt (zaOf t) (zbOf t)) :
    ynynLoopStep base ts st t =
      (st.1.map (fun r => { r with br_b := (-CQ.iUnit).div (zbOf t) }),
       st.2 ++ ts.map (fun u =>
         (u.lv_bus,
          (CQ.inv ((zaOf t * zbOf t) / (zbOf t - zaOf t))).re * inServQ u * (base : ℚ),
          (CQ.inv ((zaOf t * zbOf t) / (zbOf t - zaOf t))).im * inServQ u * (base : ℚ)))) := by
  rw [ynynLoopStep, if_neg hne, if_neg hngt, if_pos hlt]

theorem addShuntGrouped_single_getElem? (tab : List (ℚ × ℚ)) (b : ℕ) (g s : ℚ)
    (hb : b < tab.length) (i : ℕ) :
    (addShuntGrouped tab [(b, g, s)])[i]? =
      if i = b then some ((tab[b]).1 + g, (tab[b]).2 + s) else tab[i]? := by
  show (tab.set b ((tab.getD b (0, 0)).1 + g, (tab.getD b (0, 0)).2 + s))[i]? = _
  by_cases h : i = b
  · subst h
    rw [if_pos rfl, List.getElem?_set_self (by simpa using hb),
      List.getD_eq_getElem tab (0, 0) hb]
  · rw [if_neg h, List.getElem?_set_ne (Ne.symm h)]

theorem ynynGroup_single_eq_case (base : ℤ) (t : TrafoZ) (r0 : BranchZ)
    (tab : List (ℚ × ℚ)) (h : zaOf t = zbOf t) :
    ynynGroup base [t] [r0] tab =
      ([{ r0 with
            f_bus := t.hv_bus, t_bus := t.lv_bus, br_status := inServInt t,
            br_r := (zcOf t).re, br_x := (zcOf t).im,
            br_b := (-CQ.iUnit).div (zaOf t) }],
       addShuntGrouped tab [(t.lv_bus, (0 : ℚ), (0 : ℚ))]) := by
  simp only [ynynGroup, List.zipWith_cons_cons, List.zipWith_nil_right,
    List.foldl_cons, List.foldl_nil]
  rw [ynynLoopStep_eq_case base [t] _ t h]
  simp

theorem ynynGroup_single_gt_case (base : ℤ) (t : TrafoZ) (r0 : BranchZ)
    (tab : List (ℚ × ℚ)) (hne : ¬(zaOf t = zbOf t)) (hgt : cqLt (zbOf t) (zaOf t)) :
    ynynGroup base [t] [r0] tab =
      ([{ r0 with
            f_bus := t.hv_bus, t_bus := t.lv_bus, br_status := inServInt t,
            br_r := (zcOf t).re, br_x := (zcOf t).im,
            br_b := (-CQ.iUnit).div (zaOf t) }],
       addShuntGrouped tab
         [(t.hv_bus,
           (CQ.inv ((zaOf t * zbOf t) / (zaOf t - zbOf t))).re * inServQ t * (base : ℚ),
           (CQ.inv ((zaOf t * zbOf t) / (zaOf t - zbOf t))).im * inServQ t * (base : ℚ))]) := by
  simp only [ynynGroup, List.zipWith_cons_cons, List.zipWith_nil_right,
    List.foldl_cons, List.foldl_nil]
  rw [ynynLoopStep_gt_case base [t] _ t hne hgt]
  simp

theorem ynynGroup_single_lt_case (base : ℤ) (t : TrafoZ) (r0 : BranchZ)
    (tab : List (ℚ × ℚ)) (hne : ¬(zaOf t = zbOf t))
    (hngt : ¬cqLt (zbOf t) (zaOf t)) (hlt : cqLt (zaOf t) (zbOf t)) :
    ynynGroup base [t] [r0] tab =
      ([{ r0 with
            f_bus := t.hv_bus, t_bus := t.lv_bus, br_status := inServInt t,
            br_r := (zcOf t).re, br_x := (zcOf t).im,
            br_b := (-CQ.iUnit).div (zbOf t) }],
       addShuntGrouped tab
         [(t.lv_bus,
           (CQ.inv ((zaOf t * zbOf t) / (zbOf t - zaOf t))).re * inServQ t * (base : ℚ),
           (CQ.inv ((zaOf t * zbOf t) / (zbOf t - zaOf t))).im * inServQ t * (base : ℚ))]) := by
  simp only [ynynGroup, List.zipWith_cons_cons, List.zipWith_nil_right,
    List.foldl_cons, List.foldl_nil]
  rw [ynynLoopStep_lt_case base [t] _ t hne hngt hlt]
  simp

theorem CQ.hmul_eval (a b : CQ) : a * b = CQ.mul a b := rfl

theorem CQ.hadd_eval (a b : CQ) : a + b = CQ.add a b := rfl

theorem CQ.hsub_eval (a b : CQ) : a - b = CQ.sub a b := rfl

theorem CQ.hneg_eval (a : CQ) : -a = CQ.neg a := rfl

theorem CQ.hdiv_eval (a b : CQ) : a / b = CQ.div a b := rfl

theorem getD_set_self (tab : List (ℚ × ℚ)) (j : ℕ) (v : ℚ × ℚ)
    (h : j < tab.length) : (tab.set j v).getD j (0, 0) = v := by
  rw [List.getD_eq_getElem?_getD, List.getElem?_set_self (by simpa using h)]
  rfl

theorem getD_set_ne (tab : List (ℚ × ℚ)) (j : ℕ) (v : ℚ × ℚ) (i : ℕ)
    (h : j ≠ i) : (tab.set j v).getD i (0, 0) = tab.getD i (0, 0) := by
  rw [List.getD_eq_getElem?_getD, List.getElem?_set_ne h,
    ← List.getD_eq_getElem?_getD]

theorem addShuntGrouped_getD (entries : List (ℕ × ℚ × ℚ)) :
    ∀ (tab : List (ℚ × ℚ)) (i : ℕ), i < tab.length →
    (addShuntGrouped tab entries).getD i (0, 0) =
      ((tab.getD i (0, 0)).1 +
        ((entries.filter (fun e => e.1 == i)).map (fun e => e.2.1)).sum,
       (tab.getD i (0, 0)).2 +
        ((entries.filter (fun e => e.1 == i)).map (fun e => e.2.2)).sum) := by
  induction entries with
  | nil =>
      intro tab i hi
      simp [addShuntGrouped]
  | cons e rest ih =>
      intro tab i hi
      have hstep : addShuntGrouped tab (e :: rest) =
          addShuntGrouped (tab.set e.1
            ((tab.getD e.1 (0, 0)).1 + e.2.1, (tab.getD e.1 (0, 0)).2 + e.2.2))
            rest := rfl
      rw [hstep, List.filter_cons]
      by_cases h : e.1 == i
      · have he : e.1 = i := by simpa using h
        subst he
        rw [if_pos (by simp)]
        rw [ih _ _ (by rw [List.length_set]; exact hi)]
        rw [getD_set_self tab e.1 _ hi]
        simp [add_assoc]
      · have hne : e.1 ≠ i := by simpa using h
        rw [if_neg h]
        rw [ih _ _ (by rw [List.length_set]; exact hi)]
        rw [getD_set_ne tab e.1 _ i hne]

/-- C1 (amended): for a `YNyn` bucket containing a single transformer,
the branch row receives the Pi-model series impedance `zc` (real part to
`BR_R`, imaginary part to `BR_X`, computed from the transformer's own
`z1 = si0_hv_partial*z0_k`, `z2 = (1-si0_hv_partial)*z0_k`, `z3 =
z0_mag`), the status becomes the in-service flag, and the branch
susceptance written is `-1/za` when `za = zb` or `za > zb` (numpy's
lexicographic complex order) but `-1/zb` when `za < zb` - not `-1/za`
in every case; when `za = zb` (`si0_hv_partial = 0.5`) the bus shunt
table is unchanged (a zero admittance is accumulated), and when
`za > zb` (resp. `za < zb`) the shunt admittance
`1/((za*zb)/(za - zb))` (resp. `1/((za*zb)/(zb - za))`), scaled by the
in-service flag and the integer base power, is accumulated once at the
high-voltage (resp. low-voltage) bus, every other bus unchanged.  For
buckets with two or more transformers the loop writes each
transformer's susceptance onto every branch row of the bucket (the last
transformer wins) and accumulates each transformer's shunt at the
corresponding-side buses of ALL transformers of the bucket, so the
per-transformer reading of the claim fails there (see the
counterexample). -/
theorem c1_ynyn_single_trafo (base : ℤ) (t : TrafoZ) (r0 : BranchZ)
    (tab : List (ℚ × ℚ)) (hhv : t.hv_bus < tab.length)
    (hlv : t.lv_bus < tab.length) :
    (zaOf t = zbOf t →
      (ynynGroup base [t] [r0] tab).1 =
        [{ r0 with
             f_bus := t.hv_bus, t_bus := t.lv_bus, br_status := inServInt t,
             br_r := (zcOf t).re, br_x := (zcOf t).im,
             br_b := (-CQ.iUnit).div (zaOf t) }] ∧
      ∀ i : ℕ, ((ynynGroup base [t] [r0] tab).2)[i]? = tab[i]?) ∧
    (¬(zaOf t = zbOf t) → cqLt (zbOf t) (zaOf t) →
      (ynynGroup base [t] [r0] tab).1 =
        [{ r0 with
             f_bus := t.hv_bus, t_bus := t.lv_bus, br_status := inServInt t,
             br_r := (zcOf t).re, br_x := (zcOf t).im,
             br_b := (-CQ.iUnit).div (zaOf t) }] ∧
      ∀ i : ℕ, ((ynynGroup base [t] [r0] tab).2)[i]? =
        if i = t.hv_bus then
          some ((tab[t.hv_bus]).1 +
              (CQ.inv ((zaOf t * zbOf t) / (zaOf t - zbOf t))).re * inServQ t * (base : ℚ),
            (tab[t.hv_bus]).2 +
              (CQ.inv ((zaOf t * zbOf t) / (zaOf t - zbOf t))).im * inServQ t * (base : ℚ))
        else tab[i]?) ∧
    (¬(zaOf t = zbOf t) → ¬cqLt (zbOf t) (zaOf t) → cqLt (zaOf t) (zbOf t) →
      (ynynGroup base [t] [r0] tab).1 =
        [{ r0 with
             f_bus := t.hv_bus, t_bus := t.lv_bus, br_status := inServInt t,
             br_r := (zcOf t).re, br_x := (zcOf t).im,
             br_b := (-CQ.iUnit).div (zbOf t) }] ∧
      ∀ i : ℕ, ((ynynGroup base [t] [r0] tab).2)[i]? =
        if i = t.lv_bus then
          some ((tab[t.lv_bus]).1 +
              (CQ.inv ((zaOf t * zbOf t) / (zbOf t - zaOf t))).re * inServQ t * (base : ℚ),
            (tab[t.lv_bus]).2 +
              (CQ.inv ((zaOf t * zbOf t) / (zbOf t - zaOf t))).im * inServQ t * (base : ℚ))
        else tab[i]?) := by
  refine ⟨?_, ?_, ?_⟩
  · intro h
    rw [ynynGroup_single_eq_case base t r0 tab h]
    refine ⟨rfl, ?_⟩
    intro i
    rw [addShuntGrouped_single_getElem? tab t.lv_bus 0 0 hlv i]
    by_cases hil : i = t.lv_bus
    · subst hil
      rw [if_pos rfl, List.getElem?_eq_getElem hlv]
      simp
    · rw [if_neg hil]
  · intro hne hgt
    rw [ynynGroup_single_gt_case base t r0 tab hne hgt]
    exact ⟨rfl, fun i => addShuntGrouped_single_getElem? tab t.hv_bus _ _ hhv i⟩
  · intro hne hngt hlt
    rw [ynynGroup_single_lt_case base t r0 tab hne hngt hlt]
    exact ⟨rfl, fun i => addShuntGrouped_single_getElem? tab t.lv_bus _ _ hlv i⟩

/-- Witness for C1 at a single `YNyn` transformer with equal leakage
partition (`si0_hv_partial = 1/2`, `z0_k = 2`, `z0_mag = 3`, so
`za = zb = 7`): the bus shunt table is unchanged and the branch row
carries status 1 and the branch susceptance `-1/za`. -/
theorem c1_ynyn_single_trafo_witness :
    ((ynynGroup 5 [⟨0, 1, ⟨2, 0⟩, ⟨3, 0⟩, 1/2, true⟩] [defaultBranchZ]
        [(1, 2), (3, 4)]).2)[1]? = some ((3 : ℚ), (4 : ℚ)) ∧
    (((ynynGroup 5 [⟨0, 1, ⟨2, 0⟩, ⟨3, 0⟩, 1/2, true⟩] [defaultBranchZ]
        [(1, 2), (3, 4)]).1.getD 0 defaultBranchZ).br_status = 1) := by
  have heq : zaOf ⟨0, 1, ⟨2, 0⟩, ⟨3, 0⟩, 1/2, true⟩ =
      zbOf ⟨0, 1, ⟨2, 0⟩, ⟨3, 0⟩, 1/2, true⟩ := by
    norm_num [zaOf, zbOf, zTempOf, z1Of, z2Of, z3Of, CQ.ofRat, CQ.hmul_eval,
      CQ.hadd_eval, CQ.hdiv_eval, CQ.mul, CQ.add, CQ.div, CQ.inv, CQ.mk.injEq]
  have h := c1_ynyn_single_trafo 5 ⟨0, 1, ⟨2, 0⟩, ⟨3, 0⟩, 1/2, true⟩
    defaultBranchZ [(1, 2), (3, 4)] (by norm_num) (by norm_num)
  constructor
  · rw [(h.1 heq).2 1]
    rfl
  · rw [(h.1 heq).1]
    rfl

/-- Counterexample for C1: a `YNyn` bucket with two transformers, trafo
0 (buses 0-1, `z0_k = 4`, `z0_mag = 2`, `si0_hv_partial = 1/4`, hence
`za = 11/3 < zb = 11`) and trafo 1 (buses 2-3, `z0_k = 8`, `z0_mag = 4`,
`si0_hv_partial = 3/4`, hence `za = 22 > zb = 22/3`).  The claim says
trafo 0's own branch row carries the susceptance `-1/za` (equivalently
`-1/zb`) computed from its own impedances, and that trafo 1's extra
shunt admittance is accumulated once at its larger-impedance side (its
high-voltage bus 2), leaving bus 3 untouched.  In fact trafo 0's branch
row ends up with trafo 1's value `-1/za_1 = -j/22` (the loop writes onto
every row of the bucket, last transformer wins), which differs from both
`-1/za_0 = -3j/11` and `-1/zb_0 = -j/11`; and bus 3 (trafo 1's
low-voltage bus) receives a nonzero shunt (trafo 0's admittance 2/11,
spread to the lv buses of the whole bucket). -/
theorem c1_counterexample :
    (((ynynGroup 1 [⟨0, 1, ⟨4, 0⟩, ⟨2, 0⟩, 1/4, true⟩,
          ⟨2, 3, ⟨8, 0⟩, ⟨4, 0⟩, 3/4, true⟩]
        [defaultBranchZ, defaultBranchZ]
        [(0, 0), (0, 0), (0, 0), (0, 0)]).1.getD 0 defaultBranchZ).br_b ≠
      (-CQ.iUnit).div (zaOf ⟨0, 1, ⟨4, 0⟩, ⟨2, 0⟩, 1/4, true⟩)) ∧
    (((ynynGroup 1 [⟨0, 1, ⟨4, 0⟩, ⟨2, 0⟩, 1/4, true⟩,
          ⟨2, 3, ⟨8, 0⟩, ⟨4, 0⟩, 3/4, true⟩]
        [defaultBranchZ, defaultBranchZ]
        [(0, 0), (0, 0), (0, 0), (0, 0)]).1.getD 0 defaultBranchZ).br_b ≠
      (-CQ.iUnit).div (zbOf ⟨0, 1, ⟨4, 0⟩, ⟨2, 0⟩, 1/4, true⟩)) ∧
    ((ynynGroup 1 [⟨0, 1, ⟨4, 0⟩, ⟨2, 0⟩, 1/4, true⟩,
          ⟨2, 3, ⟨8, 0⟩, ⟨4, 0⟩, 3/4, true⟩]
        [defaultBranchZ, defaultBranchZ]
        [(0, 0), (0, 0), (0, 0), (0, 0)]).2.getD 3 (0, 0) ≠ ((0 : ℚ), (0 : ℚ))) := by
  set tA : TrafoZ := ⟨0, 1, ⟨4, 0⟩, ⟨2, 0⟩, 1/4, true⟩ with htA
  set tB : TrafoZ := ⟨2, 3, ⟨8, 0⟩, ⟨4, 0⟩, 3/4, true⟩ with htB
  have hzaA : zaOf tA = ⟨11/3, 0⟩ := by
    rw [htA]
    norm_num [zaOf, zTempOf, z1Of, z2Of, z3Of, CQ.ofRat, CQ.hmul_eval,
      CQ.hadd_eval, CQ.hdiv_eval, CQ.mul, CQ.add, CQ.div, CQ.inv, CQ.mk.injEq]
  have hzbA : zbOf tA = ⟨11, 0⟩ := by
    rw [htA]
    norm_num [zbOf, zTempOf, z1Of, z2Of, z3Of, CQ.ofRat, CQ.hmul_eval,
      CQ.hadd_eval, CQ.hdiv_eval, CQ.mul, CQ.add, CQ.div, CQ.inv, CQ.mk.injEq]
  have hzaB : zaOf tB = ⟨22, 0⟩ := by
    rw [htB]
    norm_num [zaOf, zTempOf, z1Of, z2Of, z3Of, CQ.ofRat, CQ.hmul_eval,
      CQ.hadd_eval, CQ.hdiv_eval, CQ.mul, CQ.add, CQ.div, CQ.inv, CQ.mk.injEq]
  have hzbB : zbOf tB = ⟨22/3, 0⟩ := by
    rw [htB]
    norm_num [zbOf, zTempOf, z1Of, z2Of, z3Of, CQ.ofRat, CQ.hmul_eval,
      CQ.hadd_eval, CQ.hdiv_eval, CQ.mul, CQ.add, CQ.div, CQ.inv, CQ.mk.injEq]
  have hneA : ¬(zaOf tA = zbOf tA) := by
    rw [hzaA, hzbA]
    norm_num [CQ.mk.injEq]
  have hngtA : ¬cqLt (zbOf tA) (zaOf tA) := by
    rw [hzaA, hzbA]
    norm_num [cqLt]
  have hltA : cqLt (zaOf tA) (zbOf tA) := by
    rw [hzaA, hzbA]
    norm_num [cqLt]
  have hneB : ¬(zaOf tB = zbOf tB) := by
    rw [hzaB, hzbB]
    norm_num [CQ.mk.injEq]
  have hgtB : cqLt (zbOf tB) (zaOf tB) := by
    rw [hzaB, hzbB]
    norm_num [cqLt]
  refine ⟨?_, ?_, ?_⟩
  · simp only [ynynGroup, List.zipWith_cons_cons, List.zipWith_nil_right,
      List.foldl_cons, List.foldl_nil]
    rw [ynynLoopStep_lt_case 1 [tA, tB] _ tA hneA hngtA hltA,
      ynynLoopStep_gt_case 1 [tA, tB] _ tB hneB hgtB]
    simp only [List.map_cons, List.map_nil, List.getD_cons_zero]
    rw [hzaA, hzaB]
    norm_num [CQ.hneg_eval, CQ.neg, CQ.div, CQ.mul, CQ.inv, CQ.iUnit, CQ.mk.injEq]
  · simp only [ynynGroup, List.zipWith_cons_cons, List.zipWith_nil_right,
      List.foldl_cons, List.foldl_nil]
    rw [ynynLoopStep_lt_case 1 [tA, tB] _ tA hneA hngtA hltA,
      ynynLoopStep_gt_case 1 [tA, tB] _ tB hneB hgtB]
    simp only [List.map_cons, List.map_nil, List.getD_cons_zero]
    rw [hzbA, hzaB]
    norm_num [CQ.hneg_eval, CQ.neg, CQ.div, CQ.mul, CQ.inv, CQ.iUnit, CQ.mk.injEq]
  · simp only [ynynGroup, List.zipWith_cons_cons, List.zipWith_nil_right,
      List.foldl_cons, List.foldl_nil]
    rw [ynynLoopStep_lt_case 1 [tA, tB] _ tA hneA hngtA hltA,
      ynynLoopStep_gt_case 1 [tA, tB] _ tB hneB hgtB]
    rw [hzaA, hzbA, hzaB, hzbB]
    simp only [htA, htB, List.map_cons, List.map_nil, List.nil_append,
      List.cons_append, List.append_nil]
    rw [addShuntGrouped_getD _ _ 3 (by norm_num)]
    norm_num [inServQ, CQ.hmul_eval, CQ.hadd_eval, CQ.hsub_eval, CQ.hdiv_eval,
      CQ.mul, CQ.add, CQ.sub, CQ.div, CQ.inv, Prod.mk.injEq]
